import Mathlib

set_option linter.unusedVariables false
set_option maxRecDepth 40000

/-!
Verification development for the analysis & synthesis engine of the
`obsidian-diary-mcp` repository (files `analysis.py` and `memory_trace.py`).

The Python code is shallowly embedded: strings are Lean `String`s (lists of
characters, matching Python's per-character `len`/slicing semantics), the
fallible generation collaborator is a function returning `Except`, floats
produced by small integer divisions are modelled exactly as rationals `ℚ`,
and Python character classes (`\w`, `\s`, `str.lower`, `str.strip`,
`str.isdigit`) are modelled on their ASCII fragment, which is the fragment
exercised by every constant appearing in the code.
-/

namespace ObsidianDiary

/-! ### ASCII character classes (fragments of Python's `\w`, `\s`, `[A-Z]`, …) -/

/-- ASCII uppercase letter test, `[A-Z]`. -/
def isUpperAscii (c : Char) : Bool := decide (65 ≤ c.toNat ∧ c.toNat ≤ 90)

/-- ASCII lowercase letter test, `[a-z]`. -/
def isLowerAscii (c : Char) : Bool := decide (97 ≤ c.toNat ∧ c.toNat ≤ 122)

/-- ASCII digit test, `[0-9]` (ASCII fragment of Python `str.isdigit`). -/
def isDigitAscii (c : Char) : Bool := decide (48 ≤ c.toNat ∧ c.toNat ≤ 57)

/-- ASCII whitespace, the ASCII fragment of Python's `\s` / default `str.strip`. -/
def isAsciiWs (c : Char) : Bool :=
  c = ' ' || c = '\t' || c = '\n' || c = '\r' || c = '\x0b' || c = '\x0c'

/-- ASCII fragment of Python's regex class `\w`: letters, digits, underscore. -/
def isWordChar (c : Char) : Bool :=
  isUpperAscii c || isLowerAscii c || isDigitAscii c || c = '_'

/-- ASCII fragment of Python `str.lower` on one character. -/
def pyLowerChar (c : Char) : Char :=
  if 65 ≤ c.toNat ∧ c.toNat ≤ 90 then Char.ofNat (c.toNat + 32) else c

/-- ASCII fragment of Python `str.lower`. -/
def pyLower (s : String) : String := ⟨s.data.map pyLowerChar⟩

/-- Python `str.strip()` on a character list (ASCII whitespace). -/
def pyStripL (l : List Char) : List Char :=
  ((l.dropWhile isAsciiWs).reverse.dropWhile isAsciiWs).reverse

/-- Python `str.strip()` (ASCII whitespace). -/
def pyStrip (s : String) : String := ⟨pyStripL s.data⟩

/-- Python `str.strip("-")` : remove leading and trailing hyphens. -/
def stripHyphens (l : List Char) : List Char :=
  ((l.dropWhile (· = '-')).reverse.dropWhile (· = '-')).reverse

/-- Python `a.startswith(b)`. -/
def pyStartsWith (s pre : String) : Bool := pre.data.isPrefixOf s.data

/-- Python `a.endswith(b)` for a one-character suffix. -/
def pyEndsWithChar (s : String) (c : Char) : Bool := s.data.getLast? = some c

/-- Python `s.split(sep)` for a one-character separator: split at every
occurrence, keeping empty pieces. -/
def pySplitChar (sep : Char) (s : String) : List String :=
  (s.data.splitOnP (· = sep)).map (⟨·⟩)

/-- Python `sub in s` (substring containment). -/
def containsSub (s sub : String) : Bool := decide (sub.data <:+: s.data)

/-! ### Python `str.replace` (leftmost, non-overlapping, single pass) -/

/-- Fuelled scanner for Python `s.replace(pat, rep)` with a non-empty pattern:
scan left to right, replace each non-overlapping occurrence, never rescanning
the replacement text.  One unit of fuel is spent per scanned position, so any
fuel of at least the list's length is enough (each matched occurrence spends
one unit and consumes at least one character). -/
def replaceAllAux (pat rep : List Char) : Nat → List Char → List Char
  | _, [] => []
  | 0, l => l
  | fuel + 1, c :: rest =>
    if pat ≠ [] ∧ pat.isPrefixOf (c :: rest) then
      rep ++ replaceAllAux pat rep fuel (List.drop pat.length (c :: rest))
    else c :: replaceAllAux pat rep fuel rest

/-- Python `s.replace(pat, rep)` on character lists. -/
def replaceAll (pat rep l : List Char) : List Char := replaceAllAux pat rep l.length l

/-- Python `s.replace(pat, rep)` on strings. -/
def pyReplace (s pat rep : String) : String := ⟨replaceAll pat.data rep.data s.data⟩

/-! ### Stable insertion sort (model of Python's stable `sorted` / `list.sort`) -/

/-- Insert `a` after every already-placed element `b` with `keep b a = true`. -/
def insertKeep (keep : α → α → Bool) (a : α) : List α → List α
  | [] => [a]
  | b :: l => if keep b a then b :: insertKeep keep a l else a :: b :: l

/-- Stable insertion sort: with `keep b a = (key a < key b)` this is Python's
stable descending `list.sort(reverse=True, key=...)`; with
`keep b a = (key b < key a)` it is Python's stable ascending `sorted`. -/
def sortKeep (keep : α → α → Bool) : List α → List α
  | [] => []
  | a :: l => insertKeep keep a (sortKeep keep l)

/-! ### Theme cache (`AnalysisEngine.get_themes_cached`, analysis.py 95-104) -/

/-- Cache key: `f"{file_stem}_{len(content)}_{hash(content[:100])}"`.  Python's
opaque `hash` is a parameter; only equality of keys matters to the code. -/
def cacheKey (hash : String → Int) (fileStem content : String) : String :=
  fileStem ++ "_" ++ toString content.length ++ "_" ++ toString (hash (content.take 100))

/-- One call of `get_themes_cached`: returns the themes, the updated cache
(an association list standing for the Python dict `_theme_cache`), and
whether a generation request (`extract_themes_and_topics`) was issued. -/
def getThemesCached (extract : String → List String) (hash : String → Int)
    (cache : List (String × List String)) (content fileStem : String) :
    List String × List (String × List String) × Bool :=
  match cache.lookup (cacheKey hash fileStem content) with
  | some v => (v, cache, false)
  | none =>
    (extract content, (cacheKey hash fileStem content, extract content) :: cache, true)

/-- Run a sequence of `get_themes_cached` calls (`(content, file_stem)` pairs)
against a starting cache, returning the final cache. -/
def runThemeCalls (extract : String → List String) (hash : String → Int) :
    List (String × List String) → List (String × String) → List (String × List String)
  | cache, [] => cache
  | cache, (content, stem) :: rest =>
      runThemeCalls extract hash (getThemesCached extract hash cache content stem).2.1 rest

/-! ### Section extraction (`_extract_brain_dump` / `_extract_reflection_prompts`,
analysis.py 17-49).  The heading regexes (`##\s*(?:💭|🧠)\s*Brain Dump\s*\n+` etc.)
are modelled at their canonical instantiation: single spaces, exact case, and
the newline run following the heading. -/

/-- Suffix of the list after the first occurrence of the (non-empty) pattern. -/
def findAfterSub (pat : List Char) : List Char → Option (List Char)
  | [] => none
  | c :: rest =>
    if pat ≠ [] ∧ pat.isPrefixOf (c :: rest) then some (List.drop pat.length (c :: rest))
    else findAfterSub pat rest

/-- Capture of the non-greedy group `(.*?)(?=\n---|\n##|\Z)`: the characters up
to (excluding) the first `"\n---"` or `"\n##"`, or the whole rest of the text. -/
def captureUntilStop : List Char → List Char
  | [] => []
  | c :: rest =>
    if ("\n---".data.isPrefixOf (c :: rest)) || ("\n##".data.isPrefixOf (c :: rest)) then []
    else c :: captureUntilStop rest

/-- Placeholder sentence stripped from the Brain Dump body (analysis.py 27-31). -/
def brainDumpPlaceholder : String := "*Your thoughts, experiences, and observations...*"

/-- Body text following a section heading: the heading must be followed by a
newline run (`\s*\n+` at its canonical instantiation), which is consumed. -/
def headingBodyAfter (content : String) (marker : String) : Option (List Char) :=
  match findAfterSub marker.data content.data with
  | none => none
  | some rest =>
    if rest.head? = some '\n' then some (rest.dropWhile (· = '\n')) else none

/-- Model of `AnalysisEngine._extract_brain_dump` (analysis.py 17-34): locate
the Brain Dump section, capture its body, strip, remove the placeholder
sentence, strip again; empty string when the section is absent. -/
def extractBrainDump (content : String) : String :=
  match headingBodyAfter content "## 💭 Brain Dump" with
  | some rest =>
    ⟨pyStripL (replaceAll brainDumpPlaceholder.data [] (pyStripL (captureUntilStop rest)))⟩
  | none =>
    match headingBodyAfter content "## 🧠 Brain Dump" with
    | some rest =>
      ⟨pyStripL (replaceAll brainDumpPlaceholder.data [] (pyStripL (captureUntilStop rest)))⟩
    | none => ""

/-- Remainder after a closing `"**"` on the same line, if any (the regex
`\*\*.*?\*\*` is compiled without DOTALL, so `.` does not cross newlines). -/
def findBoldClose : List Char → Option (List Char)
  | [] => none
  | c :: rest =>
    if c = '\n' then none
    else if "**".data.isPrefixOf (c :: rest) then some (List.drop 2 (c :: rest))
    else findBoldClose rest

/-- Fuelled scanner for `re.sub(r"\*\*.*?\*\*", "", s)`: remove each
non-overlapping same-line bold span. -/
def removeBoldAux : Nat → List Char → List Char
  | 0, l => l
  | _ + 1, [] => []
  | fuel + 1, c :: rest =>
    if "**".data.isPrefixOf (c :: rest) then
      match findBoldClose (List.drop 2 (c :: rest)) with
      | some after => removeBoldAux fuel after
      | none => c :: removeBoldAux fuel rest
    else c :: removeBoldAux fuel rest

def removeBold (l : List Char) : List Char := removeBoldAux l.length l

/-- Heading alternatives of `_extract_reflection_prompts`, in the alternation
order of the regex, at their canonical instantiation. -/
def reflectionMarkers : List String :=
  ["## 💭 Daily Reflection", "## 💭 Reflection Questions", "## 💭 Reflection Prompts",
   "## 💭 Weekly Reflection", "## 🤔 Daily Reflection", "## 🤔 Reflection Questions",
   "## 🤔 Reflection Prompts", "## 🤔 Weekly Reflection", "## 🧠 Daily Reflection",
   "## 🧠 Reflection Questions", "## 🧠 Reflection Prompts", "## 🧠 Weekly Reflection"]

def firstMarkerBody (content : String) : List String → Option (List Char)
  | [] => none
  | m :: ms =>
    match headingBodyAfter content m with
    | some rest => some rest
    | none => firstMarkerBody content ms

/-- Model of `AnalysisEngine._extract_reflection_prompts` (analysis.py 36-49):
capture the prompts section body, strip it, remove bold-markup spans. -/
def extractReflectionPrompts (content : String) : String :=
  match firstMarkerBody content reflectionMarkers with
  | some rest => ⟨removeBold (pyStripL (captureUntilStop rest))⟩
  | none => ""

/-! ### Theme extraction (`extract_themes_and_topics`, analysis.py 51-93) -/

/-- Characters before the first occurrence of the (non-empty) pattern, or the
whole list: models `re.sub(pat ++ ".*$", "", s, flags=DOTALL)`. -/
def takeBeforeSub (pat : List Char) : List Char → List Char
  | [] => []
  | c :: rest =>
    if pat ≠ [] ∧ pat.isPrefixOf (c :: rest) then []
    else c :: takeBeforeSub pat rest

/-- Strip the trailing `**Related entries:**` backlink block (analysis.py 59-61). -/
def stripRelatedEntries (content : String) : String :=
  ⟨takeBeforeSub "**Related entries:**".data content.data⟩

/-- Strip the trailing `## 🔗 Memory Links` block (analysis.py 62-64);
`##\s*🔗\s*Memory Links` at its canonical instantiation. -/
def stripMemoryLinks (content : String) : String :=
  ⟨takeBeforeSub "## 🔗 Memory Links".data content.data⟩

/-- Analysis text resolved by `extract_themes_and_topics` (analysis.py 53-65):
prefer a substantial Brain Dump, else the full entry with the trailing
related-entries and memory-links blocks stripped. -/
def analysisContentForThemes (content : String) : String :=
  if (extractBrainDump content).length > 50 then extractBrainDump content
  else stripMemoryLinks (stripRelatedEntries content)

def themePrompt (analysisContent : String) : String :=
  "Analyze this journal entry and extract 3-5 key themes or topics.\n\nEntry content: "
    ++ analysisContent
    ++ "\n\nReturn ONLY the themes as a simple comma-separated list with no other text:\nfriendship, work-stress, creativity"

def themeSystemInstruction : String :=
  "You are an expert at identifying key themes in personal writing. Extract the most meaningful concepts."

/-- Parse the collaborator response (analysis.py 88-93): split on commas,
strip, lowercase, drop empties, first 5. -/
def parseThemesResponse (resp : String) : List String :=
  ((pySplitChar ',' (pyStrip resp)).filterMap (fun t =>
    let s := pyStrip t
    if s = "" then none else some (pyLower s))).take 5

/-- Model of `AnalysisEngine.extract_themes_and_topics` (analysis.py 51-93);
the fallible generation collaborator is the `generate` parameter. -/
def extractThemesAndTopics (generate : String → String → Except String String)
    (content : String) : List String :=
  if (pyStrip (analysisContentForThemes content)).length < 20 then []
  else
    match generate (themePrompt (analysisContentForThemes content)) themeSystemInstruction with
    | .error _ => []
    | .ok resp => parseThemesResponse resp

/-! ### Topic tags (`generate_topic_tags`, analysis.py 106-136) -/

def tagSkipPhrases : List String := ["key themes", "extracted", "journal entry"]

def tagMarkerPhrases : List String := ["key themes", "extracted from"]

/-- Characters kept verbatim by `re.sub(r"[^\w\s-]+", "-", s)`. -/
def isTagKept (c : Char) : Bool := isWordChar c || isAsciiWs c || c = '-'

/-- Scanner for `re.sub(r"[^\w\s-]+", "-", s)`: each maximal run of disallowed
characters becomes a single hyphen.  The flag records whether the scanner is
inside such a run (whose hyphen has already been emitted). -/
def subDisallowedAux : Bool → List Char → List Char
  | _, [] => []
  | inRun, c :: rest =>
    if isTagKept c then c :: subDisallowedAux false rest
    else if inRun then subDisallowedAux true rest
    else '-' :: subDisallowedAux true rest

/-- Model of `re.sub(r"[^\w\s-]+", "-", s)`. -/
def subDisallowed (l : List Char) : List Char := subDisallowedAux false l

/-- Scanner for `re.sub(r"-+", "-", s)`: collapse hyphen runs; the flag
records whether the scanner is inside a hyphen run. -/
def collapseHyphensAux : Bool → List Char → List Char
  | _, [] => []
  | inRun, c :: rest =>
    if c = '-' then
      if inRun then collapseHyphensAux true rest
      else '-' :: collapseHyphensAux true rest
    else c :: collapseHyphensAux false rest

/-- Model of `re.sub(r"-+", "-", s)`. -/
def collapseHyphens (l : List Char) : List Char := collapseHyphensAux false l

/-- Normalization applied to every surviving candidate theme (analysis.py
124-127 and 131-132): lowercase, replace runs of disallowed characters with a
hyphen, trim leading/trailing hyphens, collapse repeated hyphens. -/
def normalizeTheme (t : String) : String :=
  ⟨collapseHyphens (stripHyphens (subDisallowed (pyLower t).data))⟩

/-- Model of `re.split(r"[:\n•\-]", theme)`. -/
def themeSplitParts (theme : String) : List String :=
  (theme.data.splitOnP (fun c => c = ':' || c = '\n' || c = '•' || c = '-')).map (⟨·⟩)

/-- Tags contributed by one theme in the `generate_topic_tags` loop. -/
def tagsForTheme (theme : String) : List String :=
  if tagMarkerPhrases.any (fun m => containsSub (pyLower theme) m) then
    (themeSplitParts theme).filterMap (fun part =>
      if pyStrip part ≠ "" ∧ (pyStrip part).length < 50 ∧
          ¬ tagSkipPhrases.any (fun sk => containsSub (pyLower (pyStrip part)) sk) then
        if normalizeTheme (pyStrip part) ≠ "" then
          some ("#" ++ normalizeTheme (pyStrip part))
        else none
      else none)
  else
    if normalizeTheme theme ≠ "" then ["#" ++ normalizeTheme theme] else []

/-- Model of `AnalysisEngine.generate_topic_tags` (analysis.py 106-136). -/
def generate_topic_tags (themes : List String) : List String :=
  if themes = [] then [] else themes.flatMap tagsForTheme

/-! ### Similarity search (`find_related_entries`, analysis.py 138-207) -/

/-- A corpus entry as seen by the search: filename stem and read result. -/
structure EntryRef where
  stem : String
  content : String
deriving DecidableEq

/-- Jaccard index of two theme sets, as an exact rational (the code computes
`len(intersection) / len(union)` in floating point; all values arising from
small integer counts are represented exactly). -/
def jaccard (a b : Finset String) : ℚ := ((a ∩ b).card : ℚ) / ((a ∪ b).card : ℚ)

/-- Python truthiness of the `exclude_date and file_path.stem == exclude_date`
guard (analysis.py 162). -/
def isExcluded (excludeDate : Option String) (stem : String) : Bool :=
  match excludeDate with
  | some d => decide (d ≠ "") && decide (stem = d)
  | none => false

/-- Identifier used for the query content: `exclude_date or "current"`
(analysis.py 146, with Python falsiness of the empty string). -/
def currentIdent (excludeDate : Option String) : String :=
  match excludeDate with
  | some d => if d = "" then "current" else d
  | none => "current"

/-- One iteration of the scoring loop (analysis.py 161-194). -/
def relatedStep (themesOf : String → String → List String) (currentThemes : Finset String)
    (excludeDate : Option String) (acc : List (ℚ × String)) (e : EntryRef) :
    List (ℚ × String) :=
  if isExcluded excludeDate e.stem then acc
  else if pyStartsWith e.content "Error reading file" then acc
  else if (themesOf e.content e.stem).toFinset = ∅ then acc
  else if 8 / 100 < jaccard currentThemes (themesOf e.content e.stem).toFinset then
    acc ++ [(jaccard currentThemes (themesOf e.content e.stem).toFinset, e.stem)]
  else acc

/-- Comparison giving Python's stable `sort(reverse=True, key=lambda x: x[0])`
when used with `sortKeep`. -/
def keepDesc (b a : ℚ × String) : Bool := decide (a.1 < b.1)

/-- Model of `AnalysisEngine.find_related_entries` (analysis.py 138-207).
`themesOf` abstracts the memoized `get_themes_cached` result for a
`(content, stem)` pair. -/
def findRelatedEntries (themesOf : String → String → List String)
    (currentContent : String) (excludeDate : Option String) (maxRelated : Nat)
    (entries : List EntryRef) : List String :=
  if (themesOf currentContent (currentIdent excludeDate)).toFinset = ∅ then []
  else
    ((sortKeep keepDesc
        (entries.foldl
          (relatedStep themesOf (themesOf currentContent (currentIdent excludeDate)).toFinset
            excludeDate) [])).take maxRelated).map (fun p => "[[" ++ p.2 ++ "]]")

/-- Modelled from the claim (spec §4.3 steps 5-7): an entry is kept exactly
when it is non-excluded, successfully read, and its theme set's Jaccard
similarity with the query's exceeds 0.08. -/
def specKeep (themesOf : String → String → List String) (currentThemes : Finset String)
    (excludeDate : Option String) (e : EntryRef) : Option (ℚ × String) :=
  if isExcluded excludeDate e.stem then none
  else if pyStartsWith e.content "Error reading file" then none
  else if 8 / 100 < jaccard currentThemes (themesOf e.content e.stem).toFinset then
    some (jaccard currentThemes (themesOf e.content e.stem).toFinset, e.stem)
  else none

/-- Modelled from the claim (spec §4.3): the full pipeline — filter, stable
sort by similarity descending, truncate, render backlink tokens. -/
def specFindRelated (themesOf : String → String → List String)
    (currentContent : String) (excludeDate : Option String) (maxRelated : Nat)
    (entries : List EntryRef) : List String :=
  ((sortKeep keepDesc
      (entries.filterMap
        (specKeep themesOf (themesOf currentContent (currentIdent excludeDate)).toFinset
          excludeDate))).take maxRelated).map (fun p => "[[" ++ p.2 ++ "]]")

/-! ### Prompt synthesizer (`generate_reflection_prompts`, analysis.py 209-395) -/

/-- Day-block opening patterns, the regex
`##\s*(?:MOST RECENT ENTRY|Earlier entry)\s*\(` at its canonical instantiation. -/
def dayHeads : List String := ["## MOST RECENT ENTRY (", "## Earlier entry ("]

/-- Day-block lookahead patterns, `##\s*(?:MOST RECENT ENTRY|Earlier entry)`. -/
def dayStopHeads : List String := ["## MOST RECENT ENTRY", "## Earlier entry"]

/-- Suffix starting at the earliest day-block heading, if any. -/
def findDayHead : List Char → Option (List Char)
  | [] => none
  | c :: rest =>
    if dayHeads.any (fun h => h.data.isPrefixOf (c :: rest)) then some (c :: rest)
    else findDayHead rest

/-- Body capture `(.*?)` up to the lookahead (next day heading) or end. -/
def captureDayBody : List Char → List Char
  | [] => []
  | c :: rest =>
    if dayStopHeads.any (fun h => h.data.isPrefixOf (c :: rest)) then []
    else c :: captureDayBody rest

/-- Head pattern consumed, when one matches at this position. -/
def dropDayHead (l : List Char) : Option (List Char) :=
  if "## MOST RECENT ENTRY (".data.isPrefixOf l then
    some (List.drop "## MOST RECENT ENTRY (".data.length l)
  else if "## Earlier entry (".data.isPrefixOf l then
    some (List.drop "## Earlier entry (".data.length l)
  else none

/-- Fuelled model of `entry_pattern.findall` (analysis.py 226-227): the ordered
`(date literal, body)` pairs of the composite multi-day input. -/
def parseDayBlocksAux : Nat → List Char → List (String × String)
  | 0, _ => []
  | fuel + 1, l =>
    match findDayHead l with
    | none => []
    | some atHead =>
      match dropDayHead atHead with
      | none => []
      | some afterHead =>
        let date := afterHead.takeWhile (· ≠ ')')
        let rest1 := afterHead.dropWhile (· ≠ ')')
        if date ≠ [] ∧ "):\n".data.isPrefixOf rest1 then
          let rest2 := List.drop 3 rest1
          let body := captureDayBody rest2
          (⟨date⟩, ⟨body⟩) :: parseDayBlocksAux fuel (List.drop body.length rest2)
        else parseDayBlocksAux fuel (List.drop 1 atHead)

def parseDayBlocks (s : String) : List (String × String) :=
  parseDayBlocksAux s.data.length s.data

/-- Labels `Day 1, Day 2, …` with stripped date literals (analysis.py 229-238). -/
def buildDateMap (blocks : List (String × String)) : List (String × String) :=
  blocks.enum.map (fun p => ("Day " ++ toString (p.1 + 1), pyStrip p.2.1))

/-- Priority label for day `i ≥ 2` (analysis.py 255-260). -/
def priorityLabel (i : Nat) : String :=
  if i = 2 then "SECONDARY PRIORITY"
  else if i = 3 then "TERTIARY PRIORITY"
  else "Day " ++ toString i ++ " context"

/-- Per-day content selection (analysis.py 242-243, 252-253): Brain Dump when
substantial, else the full day body. -/
def contentForDay (entry : String) : String :=
  if (extractBrainDump entry).length > 50 then extractBrainDump entry else entry

/-- Hierarchical analysis content assembled from the day blocks
(analysis.py 229-296). -/
def analysisContentForReflection (recentContent : String) : String :=
  let blocks := parseDayBlocks recentContent
  if blocks ≠ [] then
    let entryBodies := blocks.map (·.2)
    let first := entryBodies.headD ""
    let mrc := contentForDay first
    if entryBodies.length > 1 then
      let tail := entryBodies.drop 1
      let contextParts := tail.enum.map (fun p =>
        "### " ++ priorityLabel (p.1 + 2) ++ " - Day " ++ toString (p.1 + 2) ++ ":\n"
          ++ contentForDay p.2)
      let promptParts := tail.enum.flatMap (fun p =>
        let ps := extractReflectionPrompts p.2
        if ps ≠ "" then ["Day " ++ toString (p.1 + 2) ++ " prompts:\n" ++ ps] else [])
      let contextText := String.intercalate "\n\n" contextParts
      if promptParts ≠ [] then
        "## PRIMARY FOCUS - Day 1 (Today):\n" ++ mrc
          ++ "\n\n## Historical Context (use for patterns/connections only):\n" ++ contextText
          ++ "\n\n## Reflection Prompts from Previous Days (LOWEST PRIORITY - only reference if detecting unresolved thoughts):\n"
          ++ String.intercalate "\n\n" promptParts
      else
        "## PRIMARY FOCUS - Day 1 (Today):\n" ++ mrc
          ++ "\n\n## Historical Context (use for patterns/connections only):\n" ++ contextText
    else
      "## PRIMARY FOCUS - Day 1 (Today):\n" ++ mrc
  else
    let bd := extractBrainDump recentContent
    if bd.length > 50 then bd else recentContent

/-- Optional focus instruction (analysis.py 298-300, with Python falsiness of
the empty string). -/
def focusInstruction (focus : Option String) : String :=
  match focus with
  | some f => if f = "" then "" else "\n\nFocus specifically on " ++ f ++ " for all questions."
  | none => ""

def weeklyInstruction (isSunday : Bool) : String :=
  if isSunday then
    "\n\nThis is a Sunday reflection - synthesize the past week and set intentions for the week ahead."
  else ""

/-- The generation request body (analysis.py 307-343). -/
def reflectionPrompt (count : Nat) (focus : Option String) (isSunday : Bool)
    (analysisContent : String) : String :=
  "Generate " ++ toString count
    ++ " thoughtful reflection questions with a strong emphasis on what they wrote TODAY (Day 1).\n\nPRIORITY SYSTEM:\n1. PRIMARY: Day 1 (Today) - Prioritize today's writing heavily\n2. SECONDARY: Day 2 - Reference if there's a meaningful connection or ongoing pattern\n3. TERTIARY: Day 3+ - Reference only if it reveals important context\n4. PROMPTS: Previous questions - Reference only if genuinely unresolved"
    ++ focusInstruction focus ++ weeklyInstruction isSunday
    ++ "\n\n" ++ analysisContent
    ++ "\n\nCRITICAL RULES:\n- STRONGLY prioritize Day 1 (today) - most questions should be about today's content\n- You MAY reference Day 2/3 if there's a genuinely important pattern, connection, or unresolved thread\n- MANDATORY: If ANY part of your question references content from a specific day (including Day 1), you MUST cite it using [Day X] format\n- When citing, add a brief reason in parentheses explaining WHY: (pattern, unresolved, connection to today, ongoing theme, etc.)\n- BUT: Don't ask follow-up questions about old topics just because they exist in the history\n- Use your judgment: Is this old topic still relevant? Did today's writing connect to it? Is there an unresolved question?\n- NEVER invent feelings, concerns, or problems they didn't express\n- Reference their actual words, ideas, observations, plans, or questions\n- Write questions that EXPAND on what they said, not assume negativity\n\nGood examples:\n\"What do you think is contributing to your improved sleep metrics [Day 1] (mentioned today)?\"\n\"You mentioned Python community connections [Day 2] (ongoing theme) - how do you want to continue building on that?\"\n\"In light of your VS Code Dev Days experiences [Day 3] (recent learning), how might you apply those insights to your current work?\"\n\"I notice you raised concerns about work deadlines [Day 3] (unresolved question) but haven't mentioned them since - has that shifted?\"\n\nBad examples:\n\"You mentioned feeling frustrated about X a few days ago...\" (missing day citation and reason)\n\"What's making you feel worried about...\" (inventing a feeling)\n\"Why are you concerned about...\" (when they said \"thinking about\" not \"concerned\")\n\"What skills from your recent experiences...\" (referencing previous day but missing [Day X] citation)\n\nOutput format - numbered questions with MANDATORY day citations and reasons:\n1. What connections do you see between X [Day 1] (reason) and...\n2. You mentioned X [Day 2] (reason) - how might you explore...\n3. In light of Y [Day 3] (reason), what would it look like if..."

def reflectionSystemInstruction : String :=
  "You are a thoughtful journaling coach. STRONGLY prioritize Day 1 (today's writing) for questions. You may reference previous days if there's a meaningful ongoing pattern or connection, but use discretion - don't resurrect old topics that aren't currently relevant. Never assume feelings or invent problems. Output ONLY numbered questions, nothing else."

/-- Remainder after a closing think tag, if any. -/
def findThinkClose : List Char → Option (List Char)
  | [] => none
  | c :: rest =>
    if "</think>".data.isPrefixOf (c :: rest) then some (List.drop 8 (c :: rest))
    else findThinkClose rest

/-- Fuelled scanner for removing internal reasoning markup
(analysis.py 361-363, with DOTALL). -/
def removeThinkAux : Nat → List Char → List Char
  | 0, l => l
  | _ + 1, [] => []
  | fuel + 1, c :: rest =>
    if "<think>".data.isPrefixOf (c :: rest) then
      match findThinkClose (List.drop 7 (c :: rest)) with
      | some after => removeThinkAux fuel after
      | none => c :: removeThinkAux fuel rest
    else c :: removeThinkAux fuel rest

def removeThink (s : String) : String := ⟨removeThinkAux s.data.length s.data⟩

/-- Boilerplate-phrase blocklist for response lines (analysis.py 365-373). -/
def promptSkipPhrases : List String :=
  ["unresolved", "worth exploring", "here are", "**", "topics:", "questions:", "output format"]

def dayRefs : List String := ["Day 1", "Day 2", "Day 3", "Day 4", "Day 5", "Day 6", "Day 7"]

/-- Citation rewriting over one kept line (analysis.py 385-389): for each day
label contained in the line and present in the date map, replace every
occurrence of its bracketed form with the double-bracketed date literal. -/
def rewriteDayCitations (dateMap : List (String × String)) (cleanPrompt : String) : String :=
  dayRefs.foldl (fun cp ref =>
    if containsSub cp ref then
      match dateMap.lookup ref with
      | some dateStr => pyReplace cp ("[" ++ ref ++ "]") ("[[" ++ dateStr ++ "]]")
      | none => cp
    else cp) cleanPrompt

/-- Leading-enumerator strip, `re.sub(r"^[\d.\-\s]+", "", line)`. -/
def dropLeadingEnum (l : List Char) : List Char :=
  l.dropWhile (fun c => isDigitAscii c || c = '.' || c = '-' || isAsciiWs c)

/-- Response parsing of `generate_reflection_prompts` (analysis.py 359-395). -/
def parseResponsePrompts (dateMap : List (String × String)) (resp : String)
    (count : Nat) : List String :=
  let r := removeThink resp
  let prompts := (pySplitChar '\n' r).foldl (fun acc line =>
    let l := pyStrip line
    if promptSkipPhrases.any (fun p => containsSub (pyLower l) p) || l = "" then acc
    else
      match l.data with
      | [] => acc
      | c :: _ =>
        if isDigitAscii c || c = '-' then
          let cleanPrompt := pyStrip ⟨dropLeadingEnum l.data⟩
          if cleanPrompt ≠ "" ∧ (pyEndsWithChar cleanPrompt '?' ∨ cleanPrompt.length > 20) then
            acc ++ [rewriteDayCitations dateMap cleanPrompt]
          else acc
        else acc) []
  prompts.take count

/-- Model of `AnalysisEngine.generate_reflection_prompts` (analysis.py 209-395). -/
def generateReflectionPrompts (generate : String → String → Except String String)
    (recentContent : String) (focus : Option String) (count : Nat) (isSunday : Bool) :
    List String :=
  if (pyStrip recentContent).length < 20 then []
  else
    match generate (reflectionPrompt count focus isSunday (analysisContentForReflection recentContent))
        reflectionSystemInstruction with
    | .error _ => []
    | .ok resp => parseResponsePrompts (buildDateMap (parseDayBlocks recentContent)) resp count

/-! ### Todo extractor (`extract_todos`, analysis.py 397-461) -/

/-- Analysis text resolved by `extract_todos` (analysis.py 406-407): Brain Dump
when substantial, else the full entry text. -/
def analysisContentForTodos (content : String) : String :=
  if (extractBrainDump content).length > 50 then extractBrainDump content else content

/-- The generation request body of `extract_todos` (analysis.py 409-426). -/
def todoPrompt (analysisContent : String) : String :=
  "Analyze this journal entry and extract ALL action items, tasks, and todos mentioned.\n\nJournal entry:\n"
    ++ analysisContent
    ++ "\n\nYour task:\n- Identify any tasks, action items, or things the person needs/wants to do\n- Include both explicit todos (\"I need to...\", \"I should...\") and implicit ones (unfinished work, intentions, goals)\n- Be specific and actionable\n- Extract the person's own words where possible\n- If there are no clear action items, return \"No action items found\"\n\nFormat as a simple bulleted list with one action per line:\n- [Action item 1]\n- [Action item 2]\n- [Action item 3]\n\nIMPORTANT: Only output the bulleted list, no other text or commentary."

def todoSystemInstruction : String :=
  "You are a helpful assistant that extracts action items from journal entries. Be thorough but focused on actionable tasks. Output ONLY a bulleted list of action items, nothing else."

def todoSkipPhrases : List String := ["action items:", "tasks:", "todos:", "here are"]

/-- Bullet-line parsing of the todo response (analysis.py 446-458). -/
def parseTodoLines (resp : String) : List String :=
  (pySplitChar '\n' resp).foldl (fun acc line =>
    let l := pyStrip line
    if todoSkipPhrases.any (fun p => containsSub (pyLower l) p) then acc
    else
      match l.data with
      | [] => acc
      | c :: _ =>
        if c = '-' || c = '*' || c = '•' then
          let cleanTodo := pyStrip ⟨l.data.dropWhile (fun d => d = '-' || d = '*' || d = '•' || isAsciiWs d)⟩
          if cleanTodo.length > 3 then acc ++ [cleanTodo] else acc
        else acc) []

/-- Model of `AnalysisEngine.extract_todos` (analysis.py 397-461). -/
def extractTodos (generate : String → String → Except String String)
    (content : String) : List String :=
  if (pyStrip content).length < 20 then []
  else
    match generate (todoPrompt (analysisContentForTodos content)) todoSystemInstruction with
    | .error _ => []
    | .ok resp =>
      if containsSub (pyLower resp) "no action items" then []
      else parseTodoLines resp

/-! ### Memory trace reporter (memory_trace.py) -/

/-- A corpus entry as seen by `generate_memory_trace`: a sortable date key,
the filename stem, and the `read_entry` result. -/
structure TraceEntry where
  date : Nat
  stem : String
  readResult : String
deriving DecidableEq

/-- Python's stable ascending `sorted(entries, key=lambda x: x[0])`
(memory_trace.py 17). -/
def sortEntriesByDate (l : List TraceEntry) : List TraceEntry :=
  sortKeep (fun b a => decide (b.date < a.date)) l

/-- The entry-reading loop (memory_trace.py 23-36): skip entries whose read
result starts with `"Error"`, pair the rest with their cached themes. -/
def traceEntryLoop (themesOf : String → String → List String) :
    List TraceEntry → List (String × List String)
  | [] => []
  | e :: rest =>
    if pyStartsWith e.readResult "Error" then traceEntryLoop themesOf rest
    else (e.readResult, themesOf e.readResult e.stem) :: traceEntryLoop themesOf rest

/-- Model of `generate_memory_trace` (memory_trace.py 10-92): sort, read and
filter the corpus, return the terminal message when nothing survives, else
assemble the report over the surviving entry data.  The section assembly over
that data is abstracted as the `render` parameter: the claims treated here
concern the skip policy and the terminal state, which the assembly cannot
influence. -/
def generateMemoryTrace (themesOf : String → String → List String)
    (render : List (String × List String) → String) (entries : List TraceEntry) : String :=
  if traceEntryLoop themesOf (sortEntriesByDate entries) = [] then
    "No valid entries found to analyze."
  else render (traceEntryLoop themesOf (sortEntriesByDate entries))

/-! ### Growth trajectory (`_generate_growth_trajectory`, memory_trace.py 283-340) -/

def positiveWords : List String :=
  ["great", "good", "excellent", "amazing", "wonderful", "love", "happy",
   "excited", "grateful", "proud", "success", "achieved", "progress", "better",
   "improved", "growth", "win"]

def negativeWords : List String :=
  ["bad", "terrible", "awful", "sad", "angry", "frustrated", "worried",
   "anxious", "stressed", "failed", "struggling", "difficult", "hard", "tired",
   "exhausted"]

/-- Count of positive keywords contained in the lowercased content
(memory_trace.py 296-297). -/
def positiveCount (content : String) : Nat :=
  (positiveWords.filter (fun w => containsSub (pyLower content) w)).length

def negativeCount (content : String) : Nat :=
  (negativeWords.filter (fun w => containsSub (pyLower content) w)).length

/-- Sentiment score of one entry (memory_trace.py 300-301), as an exact
rational. -/
def sentimentScore (content : String) : ℚ :=
  if 0 < positiveCount content + negativeCount content then
    ((positiveCount content : ℚ) - (negativeCount content : ℚ))
      / ((positiveCount content : ℚ) + (negativeCount content : ℚ))
  else 0

/-- Chunks of size `k + 1`: the loop `for i in range(0, len(scores), size)`
with `size = k + 1 ≥ 1` (the code always passes `size = max(1, n // 5) ≥ 1`). -/
def chunksAux (k : Nat) : List ℚ → List (List ℚ)
  | [] => []
  | c :: rest => ((c :: rest).take (k + 1)) :: chunksAux k ((c :: rest).drop (k + 1))
termination_by l => l.length
decreasing_by
  simp only [List.length_drop, List.length_cons]
  omega

/-- Segment decomposition at a given positive segment size. -/
def chunksOf (size : Nat) (l : List ℚ) : List (List ℚ) := chunksAux (size - 1) l

/-- Segment size `max(1, n // 5)` (memory_trace.py 307). -/
def segmentSize (n : Nat) : Nat := max 1 (n / 5)

/-- Per-segment averages (memory_trace.py 308-312). -/
def segmentAverages (scores : List ℚ) : List ℚ :=
  (chunksOf (segmentSize scores.length) scores).map (fun seg =>
    if seg = [] then 0 else seg.sum / (seg.length : ℚ))

/-- Directional indicator for an averaged segment score (memory_trace.py
317-326); the float literals 0.2 and -0.2 are modelled exactly. -/
def arrowFor (score : ℚ) : String :=
  if 1 / 5 < score then "↗ ↗ ↗"
  else if 0 < score then "↗"
  else if score < -(1 / 5) then "↘ ↘"
  else if score < 0 then "↘"
  else "→"

/-! ### Relationships map (`_generate_relationships_map`, memory_trace.py 235-280) -/

def excludeWords : List String :=
  ["The", "I", "My", "A", "An", "This", "That", "These", "Those",
   "When", "Where", "Why", "How", "What", "Memory", "Links", "Brain", "Dump",
   "Sunday", "Monday", "Tuesday", "Wednesday", "Thursday", "Friday", "Saturday",
   "January", "February", "March", "April", "May", "June", "July", "August",
   "September", "October", "November", "December"]

/-- Scanner collecting maximal runs of word characters (the tokens `\b...\b`
can bound); `cur` is the reversed run being read. -/
def wordRunsAux (cur : List Char) : List Char → List (List Char)
  | [] => if cur = [] then [] else [cur.reverse]
  | c :: rest =>
    if isWordChar c then wordRunsAux (c :: cur) rest
    else if cur = [] then wordRunsAux [] rest
    else cur.reverse :: wordRunsAux [] rest

/-- Maximal runs of word characters. -/
def wordRuns (l : List Char) : List (List Char) := wordRunsAux [] l

/-- Shape `[A-Z][a-z]+` of a whole word run (the word boundaries of
`\b[A-Z][a-z]+\b` force the run to match entirely). -/
def capShape (run : List Char) : Bool :=
  match run with
  | [] => false
  | c :: rest => isUpperAscii c && !rest.isEmpty && rest.all isLowerAscii

/-- Model of `re.findall(r'\b[A-Z][a-z]+\b', content)` (memory_trace.py 246). -/
def findCapWords (content : String) : List String :=
  ((wordRuns content.data).filter capShape).map (⟨·⟩)

/-- All qualifying name tokens across the entry contents, in processing order
(the `potential_names.update(...)` loop, memory_trace.py 245-247). -/
def allNameTokens (contents : List String) : List String :=
  contents.flatMap (fun content => (findCapWords content).filter (fun w => ¬ w ∈ excludeWords))

def nameCount (contents : List String) (name : String) : Nat :=
  (allNameTokens contents).count name

/-- Distinct names in first-occurrence order (Python `Counter` insertion
order); `seen` accumulates the names already emitted. -/
def firstDedupAux (seen : List String) : List String → List String
  | [] => []
  | a :: l => if a ∈ seen then firstDedupAux seen l else a :: firstDedupAux (a :: seen) l

def firstDedup (l : List String) : List String := firstDedupAux [] l

/-- Model of `potential_names.most_common(10)` (names only): stable descending
by count, ties in insertion order, first 10. -/
def mostCommon10 (contents : List String) : List String :=
  (sortKeep (fun b a => decide (nameCount contents a < nameCount contents b))
    (firstDedup (allNameTokens contents))).take 10

/-- Names kept by `significant_names` (memory_trace.py 249): among the 10 most
common, mentioned at least 3 times. -/
def significantNames (contents : List String) : List String :=
  (mostCommon10 contents).filter (fun n => 3 ≤ nameCount contents n)

/-- The `high_freq` bucket (memory_trace.py 260); the float literal 0.3 is
modelled exactly. -/
def highFreqNames (contents : List String) : List String :=
  (significantNames contents).filter (fun n =>
    (contents.length : ℚ) * (3 / 10) ≤ (nameCount contents n : ℚ))

/-- The `med_freq` bucket (memory_trace.py 261). -/
def medFreqNames (contents : List String) : List String :=
  (significantNames contents).filter (fun n =>
    (contents.length : ℚ) * (1 / 10) ≤ (nameCount contents n : ℚ)
      ∧ (nameCount contents n : ℚ) < (contents.length : ℚ) * (3 / 10))

/-- Names that the rendered map displays (memory_trace.py 263-274): at most 3
close-circle names and at most 4 extended-network names. -/
def renderedNames (contents : List String) : List String :=
  (highFreqNames contents).take 3 ++ (medFreqNames contents).take 4

/-- Model of `_generate_relationships_map` (memory_trace.py 235-280) over the
surviving entry contents. -/
def generateRelationshipsMap (contents : List String) : String :=
  if (significantNames contents).length < 2 then ""
  else
    let high := highFreqNames contents
    let med := medFreqNames contents
    let headerLines := ["## Key Relationships Map", "", "```", "        YOUR NETWORK",
      "              │", "    ┌─────────┴─────────┐"]
    let highLines :=
      if high ≠ [] then
        ["    │                 │", " Close Circle    Extended Network"]
          ++ (high.take 3).map (fun name =>
               "   " ++ name ++ " (" ++ toString (nameCount contents name) ++ "×)")
      else []
    let medLines :=
      if med ≠ [] then
        ["                     │"]
          ++ (med.take 4).map (fun name =>
               "                  " ++ name ++ " (" ++ toString (nameCount contents name) ++ "×)")
      else []
    String.intercalate "\n" (headerLines ++ highLines ++ medLines ++ ["```", "", "---"])

/-! ### Auxiliary definitions used by the statements below -/

/-- One iteration of the scoring loop as an optional contribution; used to
relate the loop to the declarative pipeline. -/
def relatedStepOpt (themesOf : String → String → List String) (currentThemes : Finset String)
    (excludeDate : Option String) (e : EntryRef) : Option (ℚ × String) :=
  if isExcluded excludeDate e.stem then none
  else if pyStartsWith e.content "Error reading file" then none
  else
    let entryThemes := (themesOf e.content e.stem).toFinset
    if entryThemes = ∅ then none
    else
      let sim := jaccard currentThemes entryThemes
      if 8 / 100 < sim then some (sim, e.stem) else none

/-- Join segments with a separator; used to quantify over all occurrence
patterns of a citation token in a line. -/
def joinWith (sep : List Char) : List (List Char) → List Char
  | [] => []
  | [s] => s
  | s :: rest => s ++ sep ++ joinWith sep rest

/-- A kept response line decomposed into chunks: plain text, or a bracketed
day-citation token `[Day N]` (rendered with its brackets). -/
inductive LineChunk where
  | text : List Char → LineChunk
  | cite : String → LineChunk
deriving DecidableEq

/-- Rendering of one chunk after the rewrite loop has processed the labels in
`processed`: text is itself; a citation whose label was processed and is bound
in the date map has become `[[date]]`; any other citation is still `[label]`. -/
def chunkOut (dm : List (String × String)) (processed : List String) :
    LineChunk → List Char
  | .text s => s
  | .cite ref =>
    if ref ∈ processed then
      match dm.lookup ref with
      | some d => '[' :: '[' :: (d.data ++ [']', ']'])
      | none => '[' :: (ref.data ++ [']'])
    else '[' :: (ref.data ++ [']'])

/-- Rendering of a whole line at a given processing stage; at `processed = []`
this is the original kept line. -/
def renderLine (dm : List (String × String)) (processed : List String)
    (chunks : List LineChunk) : List Char :=
  (chunks.map (chunkOut dm processed)).flatten

/-- Segments of the rendered line lying between the `[ref]` citation tokens
(each segment is the concatenation of the renderings of a maximal run of
chunks other than `.cite ref`). -/
def splitAtCite (dm : List (String × String)) (processed : List String)
    (ref : String) : List LineChunk → List (List Char)
  | [] => [[]]
  | ch :: rest =>
    if ch = .cite ref then [] :: splitAtCite dm processed ref rest
    else
      match splitAtCite dm processed ref rest with
      | [] => [chunkOut dm processed ch]
      | s :: ss => (chunkOut dm processed ch ++ s) :: ss

/-- Shapes a rendered chunk can take relative to the pattern `[N]` (for a
label with name part `N`): a bracket-free text, a citation token of a
different label, or an already-rewritten `[[e]]` with a bracket-free date
literal `e` different from `N`.  Such a piece can neither contain an
occurrence of `[N]` nor start one that continues past it. -/
def PieceOK (N : List Char) (p : List Char) : Prop :=
  '[' ∉ p
  ∨ (∃ N', N' ≠ N ∧ '[' ∉ N' ∧ ']' ∉ N' ∧ N'.head? = some 'D' ∧ p = '[' :: (N' ++ [']']))
  ∨ (∃ e, '[' ∉ e ∧ ']' ∉ e ∧ e ≠ N ∧ p = '[' :: '[' :: (e ++ [']', ']']))

/-- Alphabet actually guaranteed for tag bodies: lowercase ASCII letters,
digits, underscore, ASCII whitespace, hyphen (the regex `^#[a-z0-9_\s-]+$`
over ASCII). -/
def tagChar (c : Char) : Bool :=
  isLowerAscii c || isDigitAscii c || c = '_' || isAsciiWs c || c = '-'

/-- The claimed tag pattern `^#[a-z0-9-]+$` as a Boolean matcher (its alphabet
admits no whitespace, so matching it implies no embedded whitespace). -/
def matchesClaimedTag (t : String) : Bool :=
  match t.data with
  | '#' :: body => !body.isEmpty && body.all (fun c => isLowerAscii c || isDigitAscii c || c = '-')
  | _ => false

/-! ### Concrete instances used by witnesses and examples -/

/-- A 101-character content. -/
def c1ContentA : String := ⟨List.replicate 100 'a' ++ ['b']⟩

/-- A different 101-character content sharing `c1ContentA`'s first 100
characters and length. -/
def c1ContentB : String := ⟨List.replicate 100 'a' ++ ['c']⟩

def c1Hash : String → Int := fun s => (s.length : Int)

def c1Cache : List (String × List String) :=
  [(cacheKey c1Hash "2024-01-05" c1ContentA, ["stored-theme"])]

/-- Theme oracle for the ranking example: query themes of size 10; entry
themes overlapping in 5, 2 and 9 of them (similarities 0.5, 0.2, 0.9). -/
def exRelThemes : String → String → List String := fun _ stem =>
  if stem = "X" then ["a", "b", "c", "d", "e"]
  else if stem = "Y" then ["a", "b"]
  else if stem = "Z" then ["a", "b", "c", "d", "e", "f", "g", "h", "i"]
  else ["a", "b", "c", "d", "e", "f", "g", "h", "i", "j"]

def exRelEntries : List EntryRef := [⟨"X", "entry X"⟩, ⟨"Y", "entry Y"⟩, ⟨"Z", "entry Z"⟩]

/-- An entry whose read succeeded but whose text happens to start with
`"Error"`. -/
def exErrTraceEntry : TraceEntry := ⟨0, "2024-01-05", "Errors everywhere today."⟩

/-- An entry content with a short (absent) Brain Dump section and a trailing
related-entries backlink block. -/
def c9Content : String :=
  "Today I made progress on the demo.\n\n**Related entries:** [[2024-01-01]]"

/-- A corpus content with ten names mentioned four times each and an eleventh
name mentioned three times. -/
def exNamesContent : String :=
  String.intercalate " "
    ((["Aa", "Bb", "Cc", "Dd", "Ee", "Ff", "Gg", "Hh", "Ii", "Jj"].flatMap
        (fun n => [n, n, n, n])) ++ ["Kk", "Kk", "Kk"])

/-! ## Lemmas about the stable insertion sort -/

theorem insertKeep_perm (keep : α → α → Bool) (a : α) (l : List α) :
    List.Perm (insertKeep keep a l) (a :: l) := by
  induction l with
  | nil => simp [insertKeep]
  | cons b t ih =>
    unfold insertKeep
    by_cases hk : keep b a = true
    · rw [if_pos hk]
      exact (ih.cons b).trans (List.Perm.swap a b t)
    · rw [if_neg hk]

theorem sortKeep_perm (keep : α → α → Bool) (l : List α) :
    List.Perm (sortKeep keep l) l := by
  induction l with
  | nil => simp [sortKeep]
  | cons a t ih => exact (insertKeep_perm keep a (sortKeep keep t)).trans (ih.cons a)

theorem insertKeep_pairwise_keepDesc (a : ℚ × String) (l : List (ℚ × String))
    (h : l.Pairwise (fun x y => y.1 ≤ x.1)) :
    (insertKeep keepDesc a l).Pairwise (fun x y => y.1 ≤ x.1) := by
  induction l with
  | nil => simp [insertKeep]
  | cons b t ih =>
    rw [List.pairwise_cons] at h
    obtain ⟨hb, ht⟩ := h
    unfold insertKeep
    by_cases hk : keepDesc b a = true
    · rw [if_pos hk]
      refine List.pairwise_cons.mpr ⟨?_, ih ht⟩
      intro x hx
      rcases List.mem_cons.mp ((insertKeep_perm keepDesc a t).mem_iff.mp hx) with h1 | h2
      · subst h1
        simp only [keepDesc, decide_eq_true_eq] at hk
        exact le_of_lt hk
      · exact hb x h2
    · rw [if_neg hk]
      simp only [keepDesc, decide_eq_true_eq] at hk
      refine List.pairwise_cons.mpr ⟨?_, List.pairwise_cons.mpr ⟨hb, ht⟩⟩
      intro x hx
      rcases List.mem_cons.mp hx with h1 | h2
      · subst h1
        exact le_of_not_lt hk
      · exact le_trans (hb x h2) (le_of_not_lt hk)

theorem sortKeep_pairwise_keepDesc (l : List (ℚ × String)) :
    (sortKeep keepDesc l).Pairwise (fun x y => y.1 ≤ x.1) := by
  induction l with
  | nil => simp [sortKeep]
  | cons a t ih => exact insertKeep_pairwise_keepDesc a (sortKeep keepDesc t) ih

/-! ## Lemmas about the theme cache -/

theorem lookup_getThemesCached (extract : String → List String) (hash : String → Int)
    (cache : List (String × List String)) (content fileStem k : String) (v : List String)
    (hk : cache.lookup k = some v) :
    ((getThemesCached extract hash cache content fileStem).2.1).lookup k = some v := by
  unfold getThemesCached
  cases hc : cache.lookup (cacheKey hash fileStem content) with
  | some w => simpa [hc] using hk
  | none =>
    have hbeq : (k == cacheKey hash fileStem content) = false := by
      rw [beq_eq_false_iff_ne]
      intro he
      rw [he] at hk
      rw [hk] at hc
      exact Option.noConfusion hc
    simp only [hc, List.lookup, hbeq]
    exact hk

theorem lookup_runThemeCalls (extract : String → List String) (hash : String → Int)
    (k : String) (v : List String) :
    ∀ (calls : List (String × String)) (cache : List (String × List String)),
      cache.lookup k = some v →
      (runThemeCalls extract hash cache calls).lookup k = some v := by
  intro calls
  induction calls with
  | nil => intro cache hk; simpa [runThemeCalls] using hk
  | cons p rest ih =>
    intro cache hk
    obtain ⟨c, s⟩ := p
    rw [runThemeCalls]
    exact ih _ (lookup_getThemesCached extract hash cache c s k v hk)

/-- C1: once a ThemeSet is stored under a cache key it is never overwritten —
after any further sequence of `get_themes_cached` calls the key still maps to
the stored value — and every later call whose key (built from the identifier,
the content length, and the hash of the first 100 characters of the content)
equals a stored key returns the stored ThemeSet with the cache unchanged and
without issuing a generation request, even when the two contents differ
beyond the first 100 characters. -/
theorem c1_cache_hit_and_never_overwritten
    (extract : String → List String) (hash : String → Int)
    (cache : List (String × List String)) (content content' fileStem : String)
    (v : List String)
    (hstored : cache.lookup (cacheKey hash fileStem content) = some v)
    (hlen : content'.length = content.length)
    (hpre : content'.take 100 = content.take 100) :
    getThemesCached extract hash cache content' fileStem = (v, cache, false) ∧
    ∀ calls : List (String × String),
      (runThemeCalls extract hash cache calls).lookup (cacheKey hash fileStem content)
        = some v := by
  have hkey : cacheKey hash fileStem content' = cacheKey hash fileStem content := by
    unfold cacheKey
    rw [hlen, hpre]
  constructor
  · unfold getThemesCached
    rw [hkey, hstored]
  · intro calls
    exact lookup_runThemeCalls extract hash _ v calls cache hstored

/-- Witness for C1: a cache holding a ThemeSet for a 101-character content is
hit by a different content sharing its first 100 characters and length, and
the stored value survives a further call. -/
theorem c1_witness :
    getThemesCached (fun _ => ["fresh"]) c1Hash c1Cache c1ContentB "2024-01-05"
      = (["stored-theme"], c1Cache, false) ∧
    (runThemeCalls (fun _ => ["fresh"]) c1Hash c1Cache
        [("other content here", "2024-01-07")]).lookup
      (cacheKey c1Hash "2024-01-05" c1ContentA) = some ["stored-theme"] := by
  have h := c1_cache_hit_and_never_overwritten (fun _ => ["fresh"]) c1Hash c1Cache
    c1ContentA c1ContentB "2024-01-05" ["stored-theme"]
    (by decide) (by decide) (by decide)
  exact ⟨h.1, h.2 [("other content here", "2024-01-07")]⟩

/-- C3: whenever the generation collaborator fails, each of the three
operations catches the failure at the call site and returns an empty list; no
failure propagates to the caller. -/
theorem c3_failure_never_propagates :
    ∀ (err content : String) (focus : Option String) (count : Nat) (isSunday : Bool),
      extractThemesAndTopics (fun _ _ => Except.error err) content = [] ∧
      generateReflectionPrompts (fun _ _ => Except.error err) content focus count isSunday = [] ∧
      extractTodos (fun _ _ => Except.error err) content = [] := by
  intro err content focus count isSunday
  refine ⟨?_, ?_, ?_⟩
  · unfold extractThemesAndTopics
    split <;> rfl
  · unfold generateReflectionPrompts
    split <;> rfl
  · unfold extractTodos
    split <;> rfl

/-- C5, counterexample: the claimed re-split of
`["key themes: Work, Rest"]` into `["#work", "#rest"]` does not happen — the
re-split separators are `:`, newline, `•` and `-`, not the comma. -/
theorem c5_counterexample :
    generate_topic_tags ["key themes: Work, Rest"] ≠ ["#work", "#rest"] := by decide

/-- C5, amended: `["Friendship"]` maps to `["#friendship"]`; for
`["key themes: Work, Rest"]` the marker phrase triggers a re-split on the
colon only, the boilerplate fragment `"key themes"` is dropped, and the
remaining fragment `"Work, Rest"` normalizes to the single tag
`"#work- rest"` (the comma is not a separator; its run becomes a hyphen). -/
theorem c5_normalization_examples :
    generate_topic_tags ["Friendship"] = ["#friendship"] ∧
    generate_topic_tags ["key themes: Work, Rest"] = ["#work- rest"] := by
  exact ⟨by decide, by decide⟩

/-! ## Memory trace: skip policy and terminal state (C8) -/

theorem traceEntryLoop_eq_filterMap (themesOf : String → String → List String) :
    ∀ entries : List TraceEntry,
      traceEntryLoop themesOf entries
        = (entries.filter (fun e => !(pyStartsWith e.readResult "Error"))).map
            (fun e => (e.readResult, themesOf e.readResult e.stem)) := by
  intro entries
  induction entries with
  | nil => rfl
  | cons e rest ih =>
    by_cases h : pyStartsWith e.readResult "Error" = true <;>
      simp [traceEntryLoop, h, ih]

/-- C8, counterexample: an entry whose read succeeded but whose text starts
with `"Error"` (not with the sentinel `"Error reading file"`) is nevertheless
skipped, and alone it drives the report to the terminal message — the claimed
"if and only if its read result begins with `Error reading file`" fails. -/
theorem c8_counterexample :
    traceEntryLoop (fun _ _ => ["t"]) [exErrTraceEntry] = [] ∧
    generateMemoryTrace (fun _ _ => ["t"]) (fun _ => "SECTIONS") [exErrTraceEntry]
      = "No valid entries found to analyze." ∧
    pyStartsWith exErrTraceEntry.readResult "Error reading file" = false :=
  ⟨by decide, by decide, by decide⟩

/-- C8, amended: during memory-trace generation an entry is skipped if and
only if its read result begins with the prefix `"Error"` (a superset of the
sentinel `"Error reading file"`); and when the corpus is empty or every entry
is skipped, `generate_memory_trace` returns the fixed "no valid entries"
message without any section computation. -/
theorem c8_skip_policy_and_terminal_state :
    (∀ (themesOf : String → String → List String)
        (render : List (String × List String) → String),
        generateMemoryTrace themesOf render [] = "No valid entries found to analyze.")
    ∧ (∀ (themesOf : String → String → List String)
          (render : List (String × List String) → String)
          (entries : List TraceEntry),
          (∀ e ∈ entries, pyStartsWith e.readResult "Error" = true) →
          generateMemoryTrace themesOf render entries = "No valid entries found to analyze.")
    ∧ (∀ (themesOf : String → String → List String) (entries : List TraceEntry),
          traceEntryLoop themesOf entries
            = (entries.filter (fun e => !(pyStartsWith e.readResult "Error"))).map
                (fun e => (e.readResult, themesOf e.readResult e.stem))) := by
  refine ⟨?_, ?_, ?_⟩
  · intro t r; rfl
  · intro t r entries h
    unfold generateMemoryTrace
    have hnil : traceEntryLoop t (sortEntriesByDate entries) = [] := by
      rw [traceEntryLoop_eq_filterMap]
      have hfil : (sortEntriesByDate entries).filter
          (fun e => !(pyStartsWith e.readResult "Error")) = [] := by
        rw [List.filter_eq_nil_iff]
        intro e he
        have hmem : e ∈ entries := by
          unfold sortEntriesByDate at he
          exact (sortKeep_perm _ entries).mem_iff.mp he
        simp [h e hmem]
      rw [hfil]
      rfl
    rw [if_pos hnil]
  · intro t entries
    exact traceEntryLoop_eq_filterMap t entries

/-- Witness for C8: a corpus whose single entry carries the read-failure
sentinel yields the terminal message. -/
theorem c8_witness :
    generateMemoryTrace (fun _ _ => ["t"]) (fun _ => "SECTIONS")
      [⟨0, "2024-01-05", "Error reading file diary/2024-01-05.md"⟩]
      = "No valid entries found to analyze." :=
  c8_skip_policy_and_terminal_state.2.1 _ _ _ (by decide)

/-! ## Similarity search (C2) -/

theorem relatedStep_eq (t : String → String → List String) (c : Finset String)
    (x : Option String) (acc : List (ℚ × String)) (e : EntryRef) :
    relatedStep t c x acc e = acc ++ (relatedStepOpt t c x e).toList := by
  unfold relatedStep relatedStepOpt
  by_cases h1 : isExcluded x e.stem = true
  · simp [h1]
  · by_cases h2 : pyStartsWith e.content "Error reading file" = true
    · simp [h1, h2]
    · by_cases h3 : (t e.content e.stem).toFinset = ∅
      · simp [h1, h2, h3]
      · by_cases h4 : (8 : ℚ) / 100 < jaccard c (t e.content e.stem).toFinset
        · simp [h1, h2, h3, h4]
        · simp [h1, h2, h3, h4]

theorem foldl_relatedStep (t : String → String → List String) (c : Finset String)
    (x : Option String) :
    ∀ (l : List EntryRef) (acc : List (ℚ × String)),
      l.foldl (relatedStep t c x) acc = acc ++ l.filterMap (relatedStepOpt t c x) := by
  intro l
  induction l with
  | nil => intro acc; simp
  | cons e rest ih =>
    intro acc
    rw [List.foldl_cons, relatedStep_eq, ih, List.filterMap_cons]
    cases h : relatedStepOpt t c x e <;> simp [h]

theorem jaccard_empty_left (s : Finset String) : jaccard ∅ s = 0 := by
  simp [jaccard]

theorem jaccard_empty_right (s : Finset String) : jaccard s ∅ = 0 := by
  simp [jaccard]

theorem relatedStepOpt_eq_specKeep (t : String → String → List String) (c : Finset String)
    (x : Option String) (e : EntryRef) :
    relatedStepOpt t c x e = specKeep t c x e := by
  unfold relatedStepOpt specKeep
  by_cases h1 : isExcluded x e.stem = true
  · simp [h1]
  · by_cases h2 : pyStartsWith e.content "Error reading file" = true
    · simp [h1, h2]
    · by_cases h3 : (t e.content e.stem).toFinset = ∅
      · have h4 : ¬((8 : ℚ) / 100 < jaccard c (∅ : Finset String)) := by
          rw [jaccard_empty_right]
          norm_num
        simp [h1, h2, h3, h4]
      · simp [h1, h2, h3]

theorem findRelatedEntries_eq_spec (t : String → String → List String)
    (cc : String) (x : Option String) (m : Nat) (entries : List EntryRef) :
    findRelatedEntries t cc x m entries = specFindRelated t cc x m entries := by
  unfold findRelatedEntries specFindRelated
  by_cases hct : (t cc (currentIdent x)).toFinset = ∅
  · rw [if_pos hct]
    have hall : ∀ e ∈ entries,
        specKeep t ((t cc (currentIdent x)).toFinset) x e = none := by
      intro e he
      unfold specKeep
      have h4 : ¬((8 : ℚ) / 100
          < jaccard ((t cc (currentIdent x)).toFinset) (t e.content e.stem).toFinset) := by
        rw [hct, jaccard_empty_left]
        norm_num
      simp [h4]
    rw [List.filterMap_eq_nil_iff.mpr hall]
    simp [sortKeep]
  · rw [if_neg hct, foldl_relatedStep, List.nil_append]
    have hfun : relatedStepOpt t ((t cc (currentIdent x)).toFinset) x
        = specKeep t ((t cc (currentIdent x)).toFinset) x :=
      funext (fun e => relatedStepOpt_eq_specKeep t _ x e)
    rw [hfun]

/-- C2: `find_related_entries` returns, as backlink tokens `[[identifier]]`,
the identifiers of exactly the non-excluded, successfully read corpus entries
whose theme set has Jaccard similarity with the query's strictly above 0.08
(an entry with an empty theme set has similarity 0 and is never kept), stably
sorted by similarity descending and truncated to the first `max_related`; in
particular kept similarities 0.5, 0.2, 0.9 for identifiers X, Y, Z yield
`[[Z]], [[X]], [[Y]]`. -/
theorem c2_find_related_pipeline :
    (∀ (themesOf : String → String → List String) (currentContent : String)
        (excludeDate : Option String) (maxRelated : Nat) (entries : List EntryRef),
        findRelatedEntries themesOf currentContent excludeDate maxRelated entries
          = specFindRelated themesOf currentContent excludeDate maxRelated entries)
    ∧ (∀ l : List (ℚ × String), List.Perm (sortKeep keepDesc l) l)
    ∧ (∀ l : List (ℚ × String), (sortKeep keepDesc l).Pairwise (fun a b => b.1 ≤ a.1))
    ∧ findRelatedEntries exRelThemes "query" none 6 exRelEntries
        = ["[[Z]]", "[[X]]", "[[Y]]"] :=
  ⟨fun t cc x m entries => findRelatedEntries_eq_spec t cc x m entries,
   fun l => sortKeep_perm keepDesc l,
   fun l => sortKeep_pairwise_keepDesc l,
   by with_unfolding_all rfl⟩

/-! ## Growth trajectory (C7) -/

theorem chunksAux_flatten (k : Nat) :
    ∀ (n : Nat) (l : List ℚ), l.length ≤ n → (chunksAux k l).flatten = l := by
  intro n
  induction n with
  | zero =>
    intro l h
    have : l = [] := List.length_eq_zero.mp (Nat.le_zero.mp h)
    subst this
    simp [chunksAux]
  | succ n ih =>
    intro l h
    match l with
    | [] => simp [chunksAux]
    | c :: rest =>
      rw [chunksAux]
      simp only [List.flatten_cons]
      rw [ih (List.drop (k + 1) (c :: rest)) (by simp only [List.length_drop]; omega)]
      exact List.take_append_drop (k + 1) (c :: rest)

theorem chunksAux_mem (k : Nat) :
    ∀ (n : Nat) (l : List ℚ), l.length ≤ n →
      ∀ seg ∈ chunksAux k l, seg ≠ [] ∧ seg.length ≤ k + 1 := by
  intro n
  induction n with
  | zero =>
    intro l h
    have : l = [] := List.length_eq_zero.mp (Nat.le_zero.mp h)
    subst this
    simp [chunksAux]
  | succ n ih =>
    intro l h seg hseg
    match l with
    | [] => simp [chunksAux] at hseg
    | c :: rest =>
      rw [chunksAux] at hseg
      rcases List.mem_cons.mp hseg with h1 | h2
      · subst h1
        refine ⟨?_, List.length_take_le _ _⟩
        rw [List.take_succ_cons]
        simp
      · exact ih (List.drop (k + 1) (c :: rest))
          (by simp only [List.length_drop]; omega) seg h2

theorem segmentSize_pos (n : Nat) : 1 ≤ segmentSize n := le_max_left 1 _

theorem chunksOf_segmentSize_flatten (scores : List ℚ) :
    (chunksOf (segmentSize scores.length) scores).flatten = scores := by
  unfold chunksOf
  exact chunksAux_flatten _ scores.length scores le_rfl

theorem chunksOf_segmentSize_mem (scores : List ℚ) :
    ∀ seg ∈ chunksOf (segmentSize scores.length) scores,
      seg ≠ [] ∧ seg.length ≤ segmentSize scores.length := by
  unfold chunksOf
  intro seg hseg
  have hk : segmentSize scores.length - 1 + 1 = segmentSize scores.length := by
    have := segmentSize_pos scores.length
    omega
  have := chunksAux_mem (segmentSize scores.length - 1) scores.length scores le_rfl seg hseg
  rw [hk] at this
  exact this

/-- C7: each entry's sentiment score is `(pos - neg) / (pos + neg)` over the
fixed keyword sets, or 0 when both counts are zero; the scores are cut into
chronological segments of size `max(1, n / 5)` that exactly cover the score
list (each segment non-empty and no longer than the segment size); each
segment's average is the plain arithmetic mean; and the fixed thresholds map
an average of 0.25 to the strong-positive indicator, -0.25 to strong-negative
and 0 to neutral. -/
theorem c7_growth_trajectory :
    (∀ content : String, positiveCount content + negativeCount content = 0 →
        sentimentScore content = 0)
    ∧ (∀ content : String, 0 < positiveCount content + negativeCount content →
        sentimentScore content
          = ((positiveCount content : ℚ) - (negativeCount content : ℚ))
              / ((positiveCount content : ℚ) + (negativeCount content : ℚ)))
    ∧ (∀ scores : List ℚ, (chunksOf (segmentSize scores.length) scores).flatten = scores)
    ∧ (∀ scores : List ℚ, ∀ seg ∈ chunksOf (segmentSize scores.length) scores,
        seg ≠ [] ∧ seg.length ≤ segmentSize scores.length)
    ∧ (∀ scores : List ℚ, segmentAverages scores
        = (chunksOf (segmentSize scores.length) scores).map
            (fun seg => seg.sum / (seg.length : ℚ)))
    ∧ segmentSize 10 = 2 ∧ segmentSize 3 = 1
    ∧ arrowFor (1 / 4) = "↗ ↗ ↗" ∧ arrowFor (-(1 / 4)) = "↘ ↘" ∧ arrowFor 0 = "→" := by
  refine ⟨?_, ?_, chunksOf_segmentSize_flatten, chunksOf_segmentSize_mem, ?_, by decide,
    by decide, ?_, ?_, ?_⟩
  · intro content h
    unfold sentimentScore
    rw [if_neg (by omega)]
  · intro content h
    unfold sentimentScore
    rw [if_pos h]
  · intro scores
    unfold segmentAverages
    refine List.map_congr_left ?_
    intro seg hseg
    rw [if_neg (chunksOf_segmentSize_mem scores seg hseg).1]
  · unfold arrowFor
    norm_num
  · unfold arrowFor
    norm_num
  · unfold arrowFor
    norm_num

/-- Witness for C7 at concrete contents and a concrete one-element score
list. -/
theorem c7_witness :
    sentimentScore "nothing here" = 0 ∧
    sentimentScore "a great win" =
      ((positiveCount "a great win" : ℚ) - (negativeCount "a great win" : ℚ))
        / ((positiveCount "a great win" : ℚ) + (negativeCount "a great win" : ℚ)) ∧
    ([(1 : ℚ)] ≠ [] ∧ [(1 : ℚ)].length ≤ segmentSize ([(1 : ℚ)].length)) :=
  ⟨c7_growth_trajectory.1 "nothing here" (by decide),
   c7_growth_trajectory.2.1 "a great win" (by decide),
   c7_growth_trajectory.2.2.2.1 [(1 : ℚ)] [(1 : ℚ)]
     (by simp [chunksOf, chunksAux, segmentSize])⟩

/-! ## Todo extractor content resolution (C9) -/

/-- C9, counterexample: for an entry without a substantial Brain Dump whose
text ends in a related-entries backlink block, `extract_todos` embeds the
full entry text unchanged — not the stripped text the claim describes — so
the backlink block reaches the generation request. -/
theorem c9_counterexample :
    analysisContentForTodos c9Content ≠ stripMemoryLinks (stripRelatedEntries c9Content) ∧
    containsSub (todoPrompt (analysisContentForTodos c9Content)) "**Related entries:**"
      = true :=
  ⟨by decide, by decide⟩

/-- C9, amended: `extract_todos` resolves its analysis text as the Brain Dump
section when its trimmed length exceeds 50 characters, and otherwise as the
full entry text unchanged (no stripping of the related-entries or
memory-links blocks, unlike `extract_themes_and_topics`); the resolved text
is embedded verbatim in the generation request. -/
theorem c9_todos_content_resolution :
    ∀ content : String,
      ((extractBrainDump content).length > 50 →
        analysisContentForTodos content = extractBrainDump content)
      ∧ ((extractBrainDump content).length ≤ 50 →
        analysisContentForTodos content = content)
      ∧ containsSub (todoPrompt (analysisContentForTodos content))
          (analysisContentForTodos content) = true := by
  intro content
  refine ⟨?_, ?_, ?_⟩
  · intro h
    unfold analysisContentForTodos
    rw [if_pos h]
  · intro h
    unfold analysisContentForTodos
    rw [if_neg (by omega)]
  · unfold todoPrompt containsSub
    simp only [decide_eq_true_eq, String.data_append]
    exact ⟨_, _, rfl⟩

/-- Witness for C9 at the concrete entry content. -/
theorem c9_witness :
    analysisContentForTodos c9Content = c9Content ∧
    containsSub (todoPrompt (analysisContentForTodos c9Content))
      (analysisContentForTodos c9Content) = true :=
  ⟨(c9_todos_content_resolution c9Content).2.1 (by decide),
   (c9_todos_content_resolution c9Content).2.2⟩

/-! ## Relationships map (C10) -/

theorem highFreqNames_subset (contents : List String) :
    highFreqNames contents ⊆ mostCommon10 contents := by
  intro a ha
  unfold highFreqNames at ha
  have h1 := List.filter_subset' _ ha
  unfold significantNames at h1
  exact List.filter_subset' _ h1

theorem medFreqNames_subset (contents : List String) :
    medFreqNames contents ⊆ mostCommon10 contents := by
  intro a ha
  unfold medFreqNames at ha
  have h1 := List.filter_subset' _ ha
  unfold significantNames at h1
  exact List.filter_subset' _ h1

theorem significantNames_subset (contents : List String) :
    significantNames contents ⊆ mostCommon10 contents := by
  intro a ha
  unfold significantNames at ha
  exact List.filter_subset' _ ha

/-- C10: the relationship map considers only the 10 most frequently mentioned
capitalized non-stopword tokens — a name mentioned at least 3 times but
outside those 10 never appears among the rendered names, does not count as a
significant name (so not toward the minimum of 2), and when fewer than 2
significant names remain the section renders as the empty string. -/
theorem c10_relationships_top10 :
    ∀ (contents : List String) (name : String),
      3 ≤ nameCount contents name →
      name ∉ mostCommon10 contents →
      name ∉ renderedNames contents ∧ name ∉ significantNames contents ∧
      ((significantNames contents).length < 2 →
        generateRelationshipsMap contents = "") := by
  intro contents name h3 hout
  refine ⟨?_, fun h => hout (significantNames_subset contents h), fun hlen => ?_⟩
  · intro h
    unfold renderedNames at h
    rcases List.mem_append.mp h with h | h
    · exact hout (highFreqNames_subset contents (List.take_subset _ _ h))
    · exact hout (medFreqNames_subset contents (List.take_subset _ _ h))
  · unfold generateRelationshipsMap
    rw [if_pos hlen]

/-- Witness for C10: in a corpus with ten names of four mentions each, the
eleventh name with three mentions is excluded from the rendered map and from
the significant names. -/
theorem c10_witness :
    "Kk" ∉ renderedNames [exNamesContent] ∧ "Kk" ∉ significantNames [exNamesContent] ∧
    ((significantNames [exNamesContent]).length < 2 →
      generateRelationshipsMap [exNamesContent] = "") :=
  c10_relationships_top10 [exNamesContent] "Kk" (by decide) (by decide)

/-! ## Topic tag alphabet (C4) -/

theorem isUpperAscii_ofNat_add (n : Nat) (h1 : 65 ≤ n) (h2 : n ≤ 90) :
    isUpperAscii (Char.ofNat (n + 32)) = false := by
  interval_cases n <;> decide

theorem isUpperAscii_pyLowerChar (c : Char) : isUpperAscii (pyLowerChar c) = false := by
  unfold pyLowerChar
  split
  · next h => exact isUpperAscii_ofNat_add c.toNat h.1 h.2
  · next h =>
    simp only [isUpperAscii, decide_eq_false_iff_not]
    exact h

theorem mem_subDisallowedAux :
    ∀ (l : List Char) (mode : Bool) (c : Char), c ∈ subDisallowedAux mode l →
      c = '-' ∨ (c ∈ l ∧ isTagKept c = true) := by
  intro l
  induction l with
  | nil => intro mode c hc; simp [subDisallowedAux] at hc
  | cons d rest ih =>
    intro mode c hc
    unfold subDisallowedAux at hc
    by_cases hk : isTagKept d = true
    · rw [if_pos hk] at hc
      rcases List.mem_cons.mp hc with h1 | h2
      · exact Or.inr ⟨h1 ▸ List.mem_cons_self d rest, h1 ▸ hk⟩
      · rcases ih false c h2 with h3 | ⟨h4, h5⟩
        · exact Or.inl h3
        · exact Or.inr ⟨List.mem_cons_of_mem d h4, h5⟩
    · rw [if_neg hk] at hc
      cases mode with
      | true =>
        rw [if_pos rfl] at hc
        rcases ih true c hc with h3 | ⟨h4, h5⟩
        · exact Or.inl h3
        · exact Or.inr ⟨List.mem_cons_of_mem d h4, h5⟩
      | false =>
        rw [if_neg (by simp)] at hc
        rcases List.mem_cons.mp hc with h1 | h2
        · exact Or.inl h1
        · rcases ih true c h2 with h3 | ⟨h4, h5⟩
          · exact Or.inl h3
          · exact Or.inr ⟨List.mem_cons_of_mem d h4, h5⟩

theorem mem_stripHyphens (l : List Char) (c : Char) (h : c ∈ stripHyphens l) : c ∈ l := by
  unfold stripHyphens at h
  rw [List.mem_reverse] at h
  have h1 := (List.dropWhile_suffix (l := (l.dropWhile (· = '-')).reverse)
    (fun d => decide (d = '-'))).sublist.subset h
  rw [List.mem_reverse] at h1
  exact (List.dropWhile_suffix (l := l) (fun d => decide (d = '-'))).sublist.subset h1

theorem mem_collapseHyphensAux :
    ∀ (l : List Char) (mode : Bool) (c : Char), c ∈ collapseHyphensAux mode l →
      c = '-' ∨ c ∈ l := by
  intro l
  induction l with
  | nil => intro mode c hc; simp [collapseHyphensAux] at hc
  | cons d rest ih =>
    intro mode c hc
    unfold collapseHyphensAux at hc
    by_cases hd : d = '-'
    · rw [if_pos hd] at hc
      cases mode with
      | true =>
        rw [if_pos rfl] at hc
        rcases ih true c hc with h3 | h4
        · exact Or.inl h3
        · exact Or.inr (List.mem_cons_of_mem d h4)
      | false =>
        rw [if_neg (by simp)] at hc
        rcases List.mem_cons.mp hc with h1 | h2
        · exact Or.inl (h1.trans hd.symm ▸ h1)
        · rcases ih true c h2 with h3 | h4
          · exact Or.inl h3
          · exact Or.inr (List.mem_cons_of_mem d h4)
    · rw [if_neg hd] at hc
      rcases List.mem_cons.mp hc with h1 | h2
      · exact Or.inr (h1 ▸ List.mem_cons_self d rest)
      · rcases ih false c h2 with h3 | h4
        · exact Or.inl h3
        · exact Or.inr (List.mem_cons_of_mem d h4)

theorem not_upper_of_mem_pyLower (s : String) (c : Char) (h : c ∈ (pyLower s).data) :
    isUpperAscii c = false := by
  unfold pyLower at h
  rcases List.mem_map.mp h with ⟨d, _, rfl⟩
  exact isUpperAscii_pyLowerChar d

theorem tagChar_of_mem_normalizeTheme (t : String) (c : Char)
    (h : c ∈ (normalizeTheme t).data) : tagChar c = true := by
  unfold normalizeTheme collapseHyphens at h
  rcases mem_collapseHyphensAux _ false c h with h1 | h2
  · subst h1; decide
  · have h3 := mem_stripHyphens _ c h2
    unfold subDisallowed at h3
    rcases mem_subDisallowedAux _ false c h3 with h4 | ⟨h5, h6⟩
    · subst h4; decide
    · have hup : isUpperAscii c = false := not_upper_of_mem_pyLower t c h5
      simp only [isTagKept, isWordChar, hup, Bool.false_or] at h6
      simp only [tagChar, Bool.or_assoc]
      simp only [Bool.or_assoc] at h6
      exact h6

theorem data_ne_nil_of_ne_empty (s : String) (h : s ≠ "") : s.data ≠ [] := by
  intro hd
  apply h
  cases s with
  | mk d => cases hd; rfl

theorem tag_shape_of_mem_tagsForTheme (theme t : String) (h : t ∈ tagsForTheme theme) :
    ∃ body : List Char, t.data = '#' :: body ∧ body ≠ [] ∧
      ∀ c ∈ body, tagChar c = true := by
  unfold tagsForTheme at h
  split at h
  · rw [List.mem_filterMap] at h
    obtain ⟨part, hpart, hsome⟩ := h
    split at hsome
    · split at hsome
      · next hne =>
        have ht : "#" ++ normalizeTheme (pyStrip part) = t := Option.some.inj hsome
        refine ⟨(normalizeTheme (pyStrip part)).data, ?_, data_ne_nil_of_ne_empty _ hne, ?_⟩
        · rw [← ht, String.data_append]
          rfl
        · intro c hc
          exact tagChar_of_mem_normalizeTheme _ c hc
      · exact absurd hsome (by simp)
    · exact absurd hsome (by simp)
  · split at h
    · next hne =>
      rw [List.mem_singleton] at h
      refine ⟨(normalizeTheme theme).data, ?_, data_ne_nil_of_ne_empty _ hne, ?_⟩
      · rw [h, String.data_append]
        rfl
      · intro c hc
        exact tagChar_of_mem_normalizeTheme _ c hc
    · simp at h

/-- C4, counterexample: the normalization keeps whitespace and underscores
(the regex replaces only `[^\w\s-]+`), so produced tokens can violate
`^#[a-z0-9-]+$` and contain embedded whitespace. -/
theorem c4_counterexample :
    generate_topic_tags ["work stress", "a_b"] = ["#work stress", "#a_b"] ∧
    matchesClaimedTag "#work stress" = false ∧ matchesClaimedTag "#a_b" = false ∧
    ' ' ∈ "#work stress".data :=
  ⟨by decide, by decide, by decide, by decide⟩

/-- C4, amended: every token produced by `generate_topic_tags` is `#` followed
by a non-empty body whose characters are lowercase ASCII letters, digits,
underscores, whitespace or hyphens (the pattern `^#[a-z0-9_\s-]+$` over
ASCII); uppercase letters never survive, but whitespace and underscores can. -/
theorem c4_tag_alphabet :
    ∀ (themes : List String) (t : String), t ∈ generate_topic_tags themes →
      ∃ body : List Char, t.data = '#' :: body ∧ body ≠ [] ∧
        ∀ c ∈ body, tagChar c = true := by
  intro themes t h
  unfold generate_topic_tags at h
  split at h
  · simp at h
  · rw [List.mem_flatMap] at h
    obtain ⟨theme, _, hmem⟩ := h
    exact tag_shape_of_mem_tagsForTheme theme t hmem

/-- Witness for C4 at the token produced from `["Friendship"]`. -/
theorem c4_witness :
    ∃ body : List Char, "#friendship".data = '#' :: body ∧ body ≠ [] ∧
      ∀ c ∈ body, tagChar c = true :=
  c4_tag_alphabet ["Friendship"] "#friendship" (by decide)

/-! ## Citation rewriting (C6) -/

theorem replaceAllAux_congr_fuel (pat rep : List Char) :
    ∀ (f1 : Nat) (s : List Char) (f2 : Nat), s.length ≤ f1 → s.length ≤ f2 →
      replaceAllAux pat rep f1 s = replaceAllAux pat rep f2 s := by
  intro f1
  induction f1 with
  | zero =>
    intro s f2 h1 _
    have hs : s = [] := List.length_eq_zero.mp (Nat.le_zero.mp h1)
    subst hs
    cases f2 <;> rfl
  | succ f ih =>
    intro s f2 h1 h2
    match s with
    | [] => cases f2 <;> rfl
    | c :: rest =>
      obtain ⟨g, rfl⟩ : ∃ g, f2 = g + 1 := by
        cases f2 with
        | zero => simp at h2
        | succ g => exact ⟨g, rfl⟩
      by_cases hp : pat ≠ [] ∧ pat.isPrefixOf (c :: rest)
      · rw [replaceAllAux, replaceAllAux, if_pos hp, if_pos hp]
        congr 1
        have hpl : 0 < pat.length := List.length_pos.mpr hp.1
        simp only [List.length_cons] at h1 h2
        apply ih
        · simp only [List.length_drop, List.length_cons]
          omega
        · simp only [List.length_drop, List.length_cons]
          omega
      · rw [replaceAllAux, replaceAllAux, if_neg hp, if_neg hp]
        congr 1
        simp only [List.length_cons] at h1 h2
        apply ih <;> omega

theorem replaceAllAux_no_infix (pat rep : List Char) :
    ∀ (fuel : Nat) (s : List Char), s.length ≤ fuel → ¬ (pat <:+: s) →
      replaceAllAux pat rep fuel s = s := by
  intro fuel
  induction fuel with
  | zero =>
    intro s h1 _
    have hs : s = [] := List.length_eq_zero.mp (Nat.le_zero.mp h1)
    subst hs
    rfl
  | succ f ih =>
    intro s hlen hinf
    match s with
    | [] => rfl
    | c :: rest =>
      rw [replaceAllAux,
        if_neg (fun hcond => hinf (List.isPrefixOf_iff_prefix.mp hcond.2).isInfix)]
      congr 1
      refine ih rest ?_ (fun hh => hinf (List.infix_cons_iff.mpr (Or.inr hh)))
      simp only [List.length_cons] at hlen
      omega

theorem replaceAllAux_scan (R rep : List Char) (hR : '[' ∉ R) :
    ∀ (seg : List Char), ∀ (Xt r : List Char) (fuel : Nat),
      (seg ++ ('[' :: Xt) ++ r).length ≤ fuel →
      ¬ (('[' :: R) <:+: seg) →
      replaceAllAux ('[' :: R) rep fuel (seg ++ ('[' :: Xt) ++ r)
        = seg ++ replaceAllAux ('[' :: R) rep (('[' :: Xt) ++ r).length (('[' :: Xt) ++ r) := by
  intro seg
  induction seg with
  | nil =>
    intro Xt r fuel hlen _
    simp only [List.nil_append] at hlen ⊢
    exact replaceAllAux_congr_fuel _ rep fuel _ _ hlen le_rfl
  | cons c w ih =>
    intro Xt r fuel hlen hseg
    obtain ⟨f, rfl⟩ : ∃ f, fuel = f + 1 := by
      cases fuel with
      | zero => simp at hlen
      | succ f => exact ⟨f, rfl⟩
    have hshape : (c :: w) ++ ('[' :: Xt) ++ r = c :: (w ++ ('[' :: Xt) ++ r) := by simp
    rw [hshape, replaceAllAux]
    have hcond : ¬(('[' :: R) ≠ [] ∧ ('[' :: R).isPrefixOf (c :: (w ++ ('[' :: Xt) ++ r))) := by
      rintro ⟨-, hpre⟩
      obtain ⟨hc, hRpre⟩ := List.cons_prefix_cons.mp (List.isPrefixOf_iff_prefix.mp hpre)
      subst hc
      obtain ⟨t, ht⟩ := hRpre
      rw [List.append_assoc] at ht
      rcases List.append_eq_append_iff.mp ht with ⟨w', hw, -⟩ | ⟨R', hRw, hXr⟩
      · exact hseg (List.IsPrefix.isInfix ⟨w', by simp [hw]⟩)
      · match R', hRw, hXr with
        | [], hRw, _ =>
          exact hseg (List.IsPrefix.isInfix ⟨[], by simp [hRw]⟩)
        | x :: R'', hRw, hXr =>
          have hx : x = '[' := by
            have := congrArg List.head? hXr
            simpa using this.symm
          apply hR
          rw [hRw, hx]
          exact List.mem_append_right w (List.mem_cons_self '[' R'')
    rw [if_neg hcond]
    have hlen' : (w ++ ('[' :: Xt) ++ r).length ≤ f := by
      simp only [List.length_append, List.length_cons] at hlen ⊢
      omega
    have hrec := ih Xt r f hlen'
      (fun hh => hseg (List.infix_cons_iff.mpr (Or.inr hh)))
    rw [hrec]
    simp

theorem replaceAllAux_at_pat (R rep : List Char) (b : List Char) (fuel : Nat)
    (hlen : (('[' :: R) ++ b).length ≤ fuel) :
    replaceAllAux ('[' :: R) rep fuel (('[' :: R) ++ b)
      = rep ++ replaceAllAux ('[' :: R) rep b.length b := by
  obtain ⟨f, rfl⟩ : ∃ f, fuel = f + 1 := by
    cases fuel with
    | zero => simp at hlen
    | succ f => exact ⟨f, rfl⟩
  rw [List.cons_append, replaceAllAux,
    if_pos ⟨by simp, List.isPrefixOf_iff_prefix.mpr ⟨b, by simp⟩⟩]
  congr 1
  have hdrop : List.drop ('[' :: R).length ('[' :: (R ++ b)) = b := by
    simp only [List.length_cons, List.drop_succ_cons]
    exact List.drop_left R b
  rw [hdrop]
  apply replaceAllAux_congr_fuel
  · simp only [List.cons_append, List.length_cons, List.length_append] at hlen
    omega
  · exact le_rfl

theorem replaceAll_joinWith_clean (R rep : List Char) (hR : '[' ∉ R) :
    ∀ segs : List (List Char), segs ≠ [] →
      (∀ s ∈ segs, ¬ (('[' :: R) <:+: s)) →
      replaceAll ('[' :: R) rep (joinWith ('[' :: R) segs) = joinWith rep segs := by
  intro segs
  induction segs with
  | nil => intro hne _; exact absurd rfl hne
  | cons s rest ih =>
    intro _ hclean
    cases rest with
    | nil =>
      show replaceAll ('[' :: R) rep s = s
      exact replaceAllAux_no_infix _ rep s.length s le_rfl
        (hclean s (List.mem_cons_self s []))
    | cons s2 rest2 =>
      show replaceAll ('[' :: R) rep (s ++ ('[' :: R) ++ joinWith ('[' :: R) (s2 :: rest2))
          = s ++ rep ++ joinWith rep (s2 :: rest2)
      unfold replaceAll
      rw [replaceAllAux_scan R rep hR s R (joinWith ('[' :: R) (s2 :: rest2)) _ le_rfl
          (hclean s (List.mem_cons_self s _)),
        replaceAllAux_at_pat R rep (joinWith ('[' :: R) (s2 :: rest2)) _ le_rfl]
      have hrec := ih (by simp) (fun x hx => hclean x (List.mem_cons_of_mem s hx))
      unfold replaceAll at hrec
      rw [hrec]
      simp

theorem takeWhile_marker (N tail1 : List Char) (hN : ']' ∉ N) :
    (N ++ ']' :: tail1).takeWhile (fun c => !(c == ']')) = N := by
  induction N with
  | nil => simp [List.takeWhile_cons]
  | cons x xs ih =>
    have hx : (x = ']') = False := by
      simp only [eq_iff_iff, iff_false]
      intro hxe
      exact hN (hxe ▸ List.mem_cons_self x xs)
    simp only [List.cons_append, List.takeWhile_cons, hx, decide_False, Bool.not_false,
      if_true]
    rw [ih (fun hm => hN (List.mem_cons_of_mem x hm))]
    simp [hx]

theorem prefix_marker_eq (N N' rest : List Char) (hN : ']' ∉ N) (hN' : ']' ∉ N')
    (h : (N ++ [']']) <+: (N' ++ ']' :: rest)) : N = N' := by
  obtain ⟨t, ht⟩ := h
  have h1 : (N ++ [']']) ++ t = N ++ ']' :: t := by simp
  rw [h1] at ht
  have h2 := congrArg (List.takeWhile (fun c => !(c == ']'))) ht
  rwa [takeWhile_marker N t hN, takeWhile_marker N' rest hN'] at h2

theorem infix_head_cases (R p rest : List Char) (h : ('[' :: R) <:+: (p ++ rest)) :
    (('[' :: R) <:+: rest) ∨ ∃ u a, p = u ++ '[' :: a ∧ R <+: (a ++ rest) := by
  obtain ⟨u, v, huv⟩ := h
  rw [List.append_assoc] at huv
  rcases List.append_eq_append_iff.mp huv with ⟨a', hpa, hav⟩ | ⟨c', -, hrc⟩
  · match a', hpa, hav with
    | [], hpa, hav =>
      exact Or.inl ⟨[], v, by simpa using hav⟩
    | x :: a'', hpa, hav =>
      have hx : '[' = x ∧ R ++ v = a'' ++ rest := by
        simpa using hav
      refine Or.inr ⟨u, a'', ?_, ⟨v, hx.2⟩⟩
      rw [hpa, ← hx.1]
  · refine Or.inl ⟨c', v, ?_⟩
    rw [List.append_assoc]
    exact hrc.symm

theorem not_infix_append_piece (N p rest : List Char)
    (hND : N.head? = some 'D') (hNrb : ']' ∉ N)
    (hp : PieceOK N p) (hrest : ¬ (('[' :: (N ++ [']'])) <:+: rest)) :
    ¬ (('[' :: (N ++ [']'])) <:+: (p ++ rest)) := by
  intro hinf
  rcases infix_head_cases _ p rest hinf with hcase | ⟨u, a, hpa, hRpre⟩
  · exact hrest hcase
  rcases hp with htext | ⟨N', hne, hlb', hrb', hhd', hpe⟩ | ⟨e, helb, herb, hene, hpe⟩
  · exact htext (hpa ▸ List.mem_append_right u (List.mem_cons_self '[' a))
  · subst hpe
    match u, hpa with
    | [], hpa =>
      have ha : N' ++ [']'] = a := by simpa using hpa
      subst ha
      have hsh : (N' ++ [']']) ++ rest = N' ++ ']' :: rest := by simp
      rw [hsh] at hRpre
      exact hne (prefix_marker_eq N N' rest hNrb hrb' hRpre).symm
    | y :: u', hpa =>
      have hconj : '[' = y ∧ N' ++ [']'] = u' ++ '[' :: a := by simpa using hpa
      have hmem : '[' ∈ N' ++ [']'] := by
        rw [hconj.2]
        exact List.mem_append_right u' (List.mem_cons_self '[' a)
      rcases List.mem_append.mp hmem with hm | hm
      · exact hlb' hm
      · simp at hm
  · subst hpe
    match u, hpa with
    | [], hpa =>
      have ha : '[' :: (e ++ [']', ']']) = a := by simpa using hpa
      subst ha
      match N, hND with
      | d0 :: N₂, hND =>
        have hd0 : d0 = 'D' := by simpa using hND
        obtain ⟨t, ht⟩ := hRpre
        have hheads : d0 = '[' := by
          have := congrArg List.head? ht
          simpa using this
        rw [hd0] at hheads
        simp at hheads
    | ['['], hpa =>
      have ha : e ++ [']', ']'] = a := by simpa using hpa
      subst ha
      have hsh : (e ++ [']', ']']) ++ rest = e ++ ']' :: (']' :: rest) := by simp
      rw [hsh] at hRpre
      exact hene (prefix_marker_eq N e (']' :: rest) hNrb herb hRpre).symm
    | y :: z :: u'', hpa =>
      have hconj : '[' = y ∧ '[' = z ∧ e ++ [']', ']'] = u'' ++ '[' :: a := by
        simpa using hpa
      have hmem : '[' ∈ e ++ [']', ']'] := by
        rw [hconj.2.2]
        exact List.mem_append_right u'' (List.mem_cons_self '[' a)
      rcases List.mem_append.mp hmem with hm | hm
      · exact helb hm
      · simp at hm

theorem string_data_inj {s t : String} (h : s.data = t.data) : s = t := by
  cases s
  cases t
  simp only at h
  rw [h]

theorem dayRef_facts (ref : String) (h : ref ∈ dayRefs) :
    '[' ∉ ref.data ∧ ']' ∉ ref.data ∧ ref.data.head? = some 'D' := by
  simp only [dayRefs, List.mem_cons, List.not_mem_nil, or_false] at h
  rcases h with rfl | rfl | rfl | rfl | rfl | rfl | rfl <;> exact ⟨by decide, by decide, rfl⟩

theorem data_bracket (ref : String) :
    ("[" ++ ref ++ "]").data = '[' :: (ref.data ++ [']']) := by
  simp [String.data_append]

theorem data_dbracket (d : String) :
    ("[[" ++ d ++ "]]").data = '[' :: '[' :: (d.data ++ [']', ']']) := by
  simp [String.data_append]

theorem chunkOut_cite_notmem (dm : List (String × String)) (P : List String)
    (ref : String) (h : ref ∉ P) :
    chunkOut dm P (.cite ref) = '[' :: (ref.data ++ [']']) := by
  simp [chunkOut, h]

theorem chunkOut_cite_mem_some (dm : List (String × String)) (P : List String)
    (ref d : String) (hm : ref ∈ P) (hl : dm.lookup ref = some d) :
    chunkOut dm P (.cite ref) = '[' :: '[' :: (d.data ++ [']', ']']) := by
  simp [chunkOut, hm, hl]

theorem chunkOut_notref (dm : List (String × String)) (P : List String) (ref : String)
    (ch : LineChunk) (hch : ch ≠ .cite ref) :
    chunkOut dm (ref :: P) ch = chunkOut dm P ch := by
  cases ch with
  | text s => rfl
  | cite r =>
    have hr : r ≠ ref := fun h => hch (by rw [h])
    by_cases hmem : r ∈ P
    · have h1 : r ∈ ref :: P := List.mem_cons_of_mem ref hmem
      simp [chunkOut, h1, hmem]
    · have h1 : r ∉ ref :: P := by
        intro hc
        rcases List.mem_cons.mp hc with h | h
        · exact hr h
        · exact hmem h
      simp [chunkOut, h1, hmem]

theorem renderLine_cons (dm : List (String × String)) (P : List String)
    (ch : LineChunk) (rest : List LineChunk) :
    renderLine dm P (ch :: rest) = chunkOut dm P ch ++ renderLine dm P rest := by
  simp [renderLine]

theorem renderLine_congr (dm : List (String × String)) (P Q : List String)
    (chunks : List LineChunk)
    (h : ∀ ref, LineChunk.cite ref ∈ chunks → (ref ∈ P ↔ ref ∈ Q)) :
    renderLine dm P chunks = renderLine dm Q chunks := by
  unfold renderLine
  congr 1
  apply List.map_congr_left
  intro ch hch
  cases ch with
  | text s => rfl
  | cite r =>
    have hiff := h r hch
    by_cases hmem : r ∈ P
    · simp [chunkOut, hmem, hiff.mp hmem]
    · have hq : r ∉ Q := fun hq => hmem (hiff.mpr hq)
      simp [chunkOut, hmem, hq]

theorem splitAtCite_ne_nil (dm : List (String × String)) (P : List String) (ref : String) :
    ∀ chunks : List LineChunk, splitAtCite dm P ref chunks ≠ [] := by
  intro chunks
  induction chunks with
  | nil => simp [splitAtCite]
  | cons ch rest ih =>
    by_cases hch : ch = .cite ref
    · simp [splitAtCite, hch]
    · rw [splitAtCite, if_neg hch]
      cases hsp : splitAtCite dm P ref rest with
      | nil => simp
      | cons s ss => simp

theorem joinWith_cons_append (sep x s : List Char) (ss : List (List Char)) :
    joinWith sep ((x ++ s) :: ss) = x ++ joinWith sep (s :: ss) := by
  cases ss with
  | nil => rfl
  | cons s2 ss2 =>
    show (x ++ s) ++ sep ++ joinWith sep (s2 :: ss2)
        = x ++ (s ++ sep ++ joinWith sep (s2 :: ss2))
    simp

theorem joinWith_splitAtCite (dm : List (String × String)) (P : List String)
    (ref : String) (hP : ref ∉ P) :
    ∀ chunks : List LineChunk,
      joinWith ('[' :: (ref.data ++ [']'])) (splitAtCite dm P ref chunks)
        = renderLine dm P chunks := by
  intro chunks
  induction chunks with
  | nil => rfl
  | cons ch rest ih =>
    by_cases hch : ch = .cite ref
    · subst hch
      rw [splitAtCite, if_pos rfl]
      cases hsp : splitAtCite dm P ref rest with
      | nil => exact absurd hsp (splitAtCite_ne_nil dm P ref rest)
      | cons s ss =>
        rw [hsp] at ih
        show [] ++ ('[' :: (ref.data ++ [']'])) ++ joinWith ('[' :: (ref.data ++ [']'])) (s :: ss)
            = renderLine dm P (.cite ref :: rest)
        rw [renderLine_cons, chunkOut_cite_notmem dm P ref hP, ih]
        simp
    · rw [splitAtCite, if_neg hch]
      cases hsp : splitAtCite dm P ref rest with
      | nil => exact absurd hsp (splitAtCite_ne_nil dm P ref rest)
      | cons s ss =>
        rw [hsp] at ih
        rw [joinWith_cons_append, ih, renderLine_cons]

theorem joinWith_splitAtCite_out (dm : List (String × String)) (P : List String)
    (ref d : String) (hl : dm.lookup ref = some d) :
    ∀ chunks : List LineChunk,
      joinWith ('[' :: '[' :: (d.data ++ [']', ']'])) (splitAtCite dm P ref chunks)
        = renderLine dm (ref :: P) chunks := by
  intro chunks
  induction chunks with
  | nil => rfl
  | cons ch rest ih =>
    by_cases hch : ch = .cite ref
    · subst hch
      rw [splitAtCite, if_pos rfl]
      cases hsp : splitAtCite dm P ref rest with
      | nil => exact absurd hsp (splitAtCite_ne_nil dm P ref rest)
      | cons s ss =>
        rw [hsp] at ih
        show [] ++ ('[' :: '[' :: (d.data ++ [']', ']']))
              ++ joinWith ('[' :: '[' :: (d.data ++ [']', ']'])) (s :: ss)
            = renderLine dm (ref :: P) (.cite ref :: rest)
        rw [renderLine_cons,
          chunkOut_cite_mem_some dm (ref :: P) ref d (List.mem_cons_self ref P) hl, ih]
        simp
    · rw [splitAtCite, if_neg hch]
      cases hsp : splitAtCite dm P ref rest with
      | nil => exact absurd hsp (splitAtCite_ne_nil dm P ref rest)
      | cons s ss =>
        rw [hsp] at ih
        rw [joinWith_cons_append, ih, renderLine_cons, chunkOut_notref dm P ref ch hch]

theorem pieceOK_chunkOut (dm : List (String × String)) (P : List String) (ref : String)
    (href : ref ∈ dayRefs)
    (H3 : ∀ r d, dm.lookup r = some d →
      '[' ∉ d.data ∧ ']' ∉ d.data ∧ ∀ r' ∈ dayRefs, d ≠ r')
    (ch : LineChunk) (hch : ch ≠ .cite ref)
    (htext : ∀ s, ch = .text s → '[' ∉ s)
    (hcite : ∀ r, ch = .cite r → r ∈ dayRefs) :
    PieceOK ref.data (chunkOut dm P ch) := by
  cases ch with
  | text s => exact Or.inl (htext s rfl)
  | cite r =>
    have hr : r ∈ dayRefs := hcite r rfl
    have hrne : r ≠ ref := fun h => hch (by rw [h])
    obtain ⟨hrlb, hrrb, hrhd⟩ := dayRef_facts r hr
    by_cases hmem : r ∈ P
    · cases hlk : dm.lookup r with
      | some d =>
        obtain ⟨hdlb, hdrb, hdne⟩ := H3 r d hlk
        refine Or.inr (Or.inr ⟨d.data, hdlb, hdrb,
          fun h => hdne ref href (string_data_inj h), ?_⟩)
        simp [chunkOut, hmem, hlk]
      | none =>
        refine Or.inr (Or.inl ⟨r.data, fun h => hrne (string_data_inj h),
          hrlb, hrrb, hrhd, ?_⟩)
        simp [chunkOut, hmem, hlk]
    · refine Or.inr (Or.inl ⟨r.data, fun h => hrne (string_data_inj h),
        hrlb, hrrb, hrhd, ?_⟩)
      simp [chunkOut, hmem]

theorem splitAtCite_clean (dm : List (String × String)) (P : List String) (ref : String)
    (href : ref ∈ dayRefs)
    (H3 : ∀ r d, dm.lookup r = some d →
      '[' ∉ d.data ∧ ']' ∉ d.data ∧ ∀ r' ∈ dayRefs, d ≠ r') :
    ∀ chunks : List LineChunk,
      (∀ s, LineChunk.text s ∈ chunks → '[' ∉ s) →
      (∀ r, LineChunk.cite r ∈ chunks → r ∈ dayRefs) →
      ∀ s ∈ splitAtCite dm P ref chunks, ¬ (('[' :: (ref.data ++ [']'])) <:+: s) := by
  obtain ⟨hreflb, hrefrb, hrefhd⟩ := dayRef_facts ref href
  intro chunks
  induction chunks with
  | nil =>
    intro _ _ s hs hinf
    have hs' : s = [] := by simpa [splitAtCite] using hs
    subst hs'
    have := List.eq_nil_of_infix_nil hinf
    simp at this
  | cons ch rest ih =>
    intro H1 H2 s hs hinf
    have H1' : ∀ t, LineChunk.text t ∈ rest → '[' ∉ t :=
      fun t ht => H1 t (List.mem_cons_of_mem ch ht)
    have H2' : ∀ r, LineChunk.cite r ∈ rest → r ∈ dayRefs :=
      fun r hr => H2 r (List.mem_cons_of_mem ch hr)
    by_cases hch : ch = .cite ref
    · rw [splitAtCite, if_pos hch] at hs
      rcases List.mem_cons.mp hs with hs0 | hs1
      · subst hs0
        have := List.eq_nil_of_infix_nil hinf
        simp at this
      · exact ih H1' H2' s hs1 hinf
    · rw [splitAtCite, if_neg hch] at hs
      cases hsp : splitAtCite dm P ref rest with
      | nil => exact absurd hsp (splitAtCite_ne_nil dm P ref rest)
      | cons s1 ss =>
        rw [hsp] at hs
        rcases List.mem_cons.mp hs with hs0 | hs1
        · subst hs0
          have hclean1 : ¬ (('[' :: (ref.data ++ [']'])) <:+: s1) :=
            ih H1' H2' s1 (by rw [hsp]; exact List.mem_cons_self s1 ss)
          have hpiece : PieceOK ref.data (chunkOut dm P ch) :=
            pieceOK_chunkOut dm P ref href H3 ch hch
              (fun t ht => H1 t (ht ▸ List.mem_cons_self ch rest))
              (fun r hr => H2 r (hr ▸ List.mem_cons_self ch rest))
          exact not_infix_append_piece ref.data (chunkOut dm P ch) s1
            hrefhd hrefrb hpiece hclean1 hinf
        · exact ih H1' H2' s (by rw [hsp]; exact List.mem_cons_of_mem s1 hs1) hinf

theorem infix_renderLine_of_cite_mem (dm : List (String × String)) (P : List String)
    (ref : String) (chunks : List LineChunk) (hP : ref ∉ P)
    (hm : LineChunk.cite ref ∈ chunks) :
    ref.data <:+: renderLine dm P chunks := by
  have h1 : chunkOut dm P (.cite ref) ∈ chunks.map (chunkOut dm P) :=
    List.mem_map_of_mem (chunkOut dm P) hm
  have h2 : chunkOut dm P (.cite ref) <:+: renderLine dm P chunks := by
    unfold renderLine
    exact List.infix_of_mem_flatten h1
  refine List.IsInfix.trans ?_ h2
  rw [chunkOut_cite_notmem dm P ref hP]
  exact ⟨['['], [']'], by simp⟩

theorem renderLine_lookup_none (dm : List (String × String)) (P : List String)
    (ref : String) (hl : dm.lookup ref = none) (chunks : List LineChunk) :
    renderLine dm (ref :: P) chunks = renderLine dm P chunks := by
  unfold renderLine
  congr 1
  apply List.map_congr_left
  intro ch _
  by_cases hch : ch = .cite ref
  · subst hch
    by_cases hmem : ref ∈ P
    · simp [chunkOut, hmem, List.mem_cons_self, hl]
    · simp [chunkOut, hmem, List.mem_cons_self, hl]
  · exact chunkOut_notref dm P ref ch hch

theorem rewriteStep (dm : List (String × String)) (chunks : List LineChunk)
    (H1 : ∀ s, LineChunk.text s ∈ chunks → '[' ∉ s)
    (H2 : ∀ r, LineChunk.cite r ∈ chunks → r ∈ dayRefs)
    (H3 : ∀ r d, dm.lookup r = some d →
      '[' ∉ d.data ∧ ']' ∉ d.data ∧ ∀ r' ∈ dayRefs, d ≠ r')
    (P : List String) (ref : String) (href : ref ∈ dayRefs) (hP : ref ∉ P) :
    (if containsSub ⟨renderLine dm P chunks⟩ ref then
      match dm.lookup ref with
      | some dateStr =>
          pyReplace ⟨renderLine dm P chunks⟩ ("[" ++ ref ++ "]") ("[[" ++ dateStr ++ "]]")
      | none => (⟨renderLine dm P chunks⟩ : String)
    else ⟨renderLine dm P chunks⟩) = ⟨renderLine dm (ref :: P) chunks⟩ := by
  cases hlk : dm.lookup ref with
  | none =>
    rw [renderLine_lookup_none dm P ref hlk chunks]
    by_cases hc : containsSub ⟨renderLine dm P chunks⟩ ref = true
    · rw [if_pos hc]
      try simp only [hlk]
    · rw [if_neg hc]
  | some d =>
    by_cases hc : containsSub ⟨renderLine dm P chunks⟩ ref = true
    · rw [if_pos hc]
      simp only [hlk]
      show pyReplace ⟨renderLine dm P chunks⟩ ("[" ++ ref ++ "]") ("[[" ++ d ++ "]]")
          = ⟨renderLine dm (ref :: P) chunks⟩
      unfold pyReplace
      congr 1
      rw [data_bracket, data_dbracket]
      show replaceAll ('[' :: (ref.data ++ [']'])) ('[' :: '[' :: (d.data ++ [']', ']']))
          (renderLine dm P chunks) = renderLine dm (ref :: P) chunks
      obtain ⟨hreflb, hrefrb, hrefhd⟩ := dayRef_facts ref href
      have hRlb : '[' ∉ ref.data ++ [']'] := by
        intro hmem
        rcases List.mem_append.mp hmem with h | h
        · exact hreflb h
        · simp at h
      rw [← joinWith_splitAtCite dm P ref hP chunks]
      rw [replaceAll_joinWith_clean (ref.data ++ [']'])
          ('[' :: '[' :: (d.data ++ [']', ']'])) hRlb
          (splitAtCite dm P ref chunks) (splitAtCite_ne_nil dm P ref chunks)
          (splitAtCite_clean dm P ref href H3 chunks H1 H2)]
      exact joinWith_splitAtCite_out dm P ref d hlk chunks
    · rw [if_neg hc]
      have hnotm : LineChunk.cite ref ∉ chunks := by
        intro hm
        apply hc
        have hinf := infix_renderLine_of_cite_mem dm P ref chunks hP hm
        simpa [containsSub] using hinf
      congr 1
      apply renderLine_congr
      intro r hr
      have hrne : r ≠ ref := fun h => hnotm (h ▸ hr)
      simp [List.mem_cons, hrne]

theorem rewriteFold (dm : List (String × String)) (chunks : List LineChunk)
    (H1 : ∀ s, LineChunk.text s ∈ chunks → '[' ∉ s)
    (H2 : ∀ r, LineChunk.cite r ∈ chunks → r ∈ dayRefs)
    (H3 : ∀ r d, dm.lookup r = some d →
      '[' ∉ d.data ∧ ']' ∉ d.data ∧ ∀ r' ∈ dayRefs, d ≠ r') :
    ∀ (refs : List String) (P : List String),
      (∀ r ∈ refs, r ∈ dayRefs) → (∀ r ∈ refs, r ∉ P) → refs.Nodup →
      List.foldl (fun cp ref =>
        if containsSub cp ref then
          match dm.lookup ref with
          | some dateStr => pyReplace cp ("[" ++ ref ++ "]") ("[[" ++ dateStr ++ "]]")
          | none => cp
        else cp) (⟨renderLine dm P chunks⟩ : String) refs
      = ⟨renderLine dm (refs.reverse ++ P) chunks⟩ := by
  intro refs
  induction refs with
  | nil =>
    intro P _ _ _
    simp
  | cons ref refs ih =>
    intro P hall hnotP hnd
    rw [List.foldl_cons]
    have hstep := rewriteStep dm chunks H1 H2 H3 P ref
      (hall ref (List.mem_cons_self ref refs)) (hnotP ref (List.mem_cons_self ref refs))
    rw [hstep]
    have hall' : ∀ r ∈ refs, r ∈ dayRefs :=
      fun r hr => hall r (List.mem_cons_of_mem ref hr)
    have hnotP' : ∀ r ∈ refs, r ∉ ref :: P := by
      intro r hr hmem
      rcases List.mem_cons.mp hmem with h | h
      · exact (List.nodup_cons.mp hnd).1 (h ▸ hr)
      · exact hnotP r (List.mem_cons_of_mem ref hr) h
    rw [ih (ref :: P) hall' hnotP' (List.nodup_cons.mp hnd).2]
    congr 2
    simp

/-- **C6**: In `generate_reflection_prompts`, for every kept response line —
modelled as an arbitrary interleaving of bracket-free text chunks and
day-citation chunks `[Day N]` over an arbitrary `date_map` whose date
literals are bracket-free and distinct from the day labels — every
occurrence of every bracketed label `[Day N]` (N in 1..7) that is present
in `date_map` is rewritten to `[[<date literal>]]`, and no other content of
the line changes (labels absent from `date_map` and all text chunks are
preserved verbatim): the rewrite loop maps the rendering of the line with
no label processed to its rendering with all seven labels processed.  In
particular, with `date_map = {"Day 2": "2024-01-02"}`, kept lines
containing `[Day 2]` are returned with `[[2024-01-02]]` substituted at
every occurrence and an unbound `[Day 3]` left unchanged. -/
theorem c6_day_citation_rewrite
    (dm : List (String × String)) (chunks : List LineChunk)
    (H1 : ∀ s, LineChunk.text s ∈ chunks → '[' ∉ s)
    (H2 : ∀ r, LineChunk.cite r ∈ chunks → r ∈ dayRefs)
    (H3 : ∀ r d, dm.lookup r = some d →
      '[' ∉ d.data ∧ ']' ∉ d.data ∧ ∀ r' ∈ dayRefs, d ≠ r') :
    rewriteDayCitations dm ⟨renderLine dm [] chunks⟩
      = ⟨renderLine dm dayRefs chunks⟩
    ∧ parseResponsePrompts [("Day 2", "2024-01-02")]
        "1. What shifted since [Day 2] (pattern)?\n2. Where did the worry from [Day 2] go [Day 3]?"
        3
      = ["What shifted since [[2024-01-02]] (pattern)?",
         "Where did the worry from [[2024-01-02]] go [Day 3]?"] := by
  constructor
  · unfold rewriteDayCitations
    rw [rewriteFold dm chunks H1 H2 H3 dayRefs [] (fun r hr => hr)
        (fun r _ => List.not_mem_nil r) (by decide)]
    congr 1
    apply renderLine_congr
    intro r _
    simp
  · decide

theorem c6_witness :
    rewriteDayCitations [("Day 1", "2024-01-05"), ("Day 2", "2024-01-04")]
        ⟨renderLine [("Day 1", "2024-01-05"), ("Day 2", "2024-01-04")] []
          [LineChunk.text "You said X ".data, LineChunk.cite "Day 1",
           LineChunk.text " and Y ".data, LineChunk.cite "Day 2", LineChunk.cite "Day 2",
           LineChunk.text " - why?".data, LineChunk.cite "Day 3"]⟩
      = ⟨renderLine [("Day 1", "2024-01-05"), ("Day 2", "2024-01-04")] dayRefs
          [LineChunk.text "You said X ".data, LineChunk.cite "Day 1",
           LineChunk.text " and Y ".data, LineChunk.cite "Day 2", LineChunk.cite "Day 2",
           LineChunk.text " - why?".data, LineChunk.cite "Day 3"]⟩ :=
  (c6_day_citation_rewrite [("Day 1", "2024-01-05"), ("Day 2", "2024-01-04")]
    [LineChunk.text "You said X ".data, LineChunk.cite "Day 1",
     LineChunk.text " and Y ".data, LineChunk.cite "Day 2", LineChunk.cite "Day 2",
     LineChunk.text " - why?".data, LineChunk.cite "Day 3"]
    (by
      intro s hs
      simp at hs
      rcases hs with rfl | rfl | rfl <;> decide)
    (by
      intro r hr
      simp at hr
      rcases hr with rfl | rfl | rfl | rfl <;> decide)
    (by
      intro r d hlk
      by_cases h1 : r = "Day 1"
      · subst h1
        have hv : List.lookup "Day 1" [("Day 1", "2024-01-05"), ("Day 2", "2024-01-04")]
            = some "2024-01-05" := by decide
        rw [hv] at hlk
        injection hlk with hd
        subst hd
        exact ⟨by decide, by decide, by decide⟩
      · by_cases h2 : r = "Day 2"
        · subst h2
          have hv : List.lookup "Day 2" [("Day 1", "2024-01-05"), ("Day 2", "2024-01-04")]
              = some "2024-01-04" := by decide
          rw [hv] at hlk
          injection hlk with hd
          subst hd
          exact ⟨by decide, by decide, by decide⟩
        · have b1 : ("Day 1" == r) = false := beq_eq_false_iff_ne.mpr (Ne.symm h1)
          have b2 : ("Day 2" == r) = false := beq_eq_false_iff_ne.mpr (Ne.symm h2)
          have b1' : (r == "Day 1") = false := beq_eq_false_iff_ne.mpr h1
          have b2' : (r == "Day 2") = false := beq_eq_false_iff_ne.mpr h2
          simp [List.lookup, b1, b2, b1', b2'] at hlk)).1

end ObsidianDiary
